import Mathlib

/-!
Verification of the SpectraNLP standardise/merge pipeline
(`src/utils/helpers.py`: `standardize_dataframe`, `merge_dataframes`).

A pandas `DataFrame` is embedded as an ordered list of named columns
together with a row count.  Column labels may be duplicated, exactly as
in pandas (renaming a column onto an existing label creates duplicate
labels).  Values are strings, timestamps or missing (`NaN`/`NaT`).

The two `datetime.now()` call sites in the source are modelled by a
single explicit clock argument `now`; at most one of the two sites can
reach the returned table in any single run, so one observed clock value
suffices.  The uncaught `KeyError` that pandas raises on
`result['date']` when the date column vanished (and on the final column
projection) is modelled by an `Except String` result.
-/

/-- A cell value: a string, a timestamp (`datetime64` value), or a
missing value (pandas `NaN`/`NaT`). -/
inductive Val where
  | str : String → Val
  | dt : Nat → Val
  | na : Val
deriving DecidableEq, Repr

/-- A pandas `DataFrame`: a row count plus an ordered list of labelled
columns.  Duplicate labels are representable, as in pandas. -/
structure DataFrame where
  nrows : Nat
  cols : List (String × List Val)
deriving DecidableEq, Repr

/-- Well-formed table in the sense of the spec's data model: a mapping
from column name to column, i.e. no duplicate labels. -/
def wfNames (df : DataFrame) : Prop := (df.cols.map Prod.fst).Nodup

instance (df : DataFrame) : Decidable (wfNames df) := by
  unfold wfNames
  infer_instance

/-- Rectangularity: every column has exactly `nrows` values. -/
def wfLen (df : DataFrame) : Prop := ∀ p ∈ df.cols, p.2.length = df.nrows

instance (df : DataFrame) : Decidable (wfLen df) := by
  unfold wfLen
  infer_instance

/-- The list of column labels, in order (pandas `df.columns`). -/
def colNames (df : DataFrame) : List String := df.cols.map Prod.fst

/-- Membership test `name in df.columns`. -/
def hasCol (df : DataFrame) (n : String) : Bool := (colNames df).contains n

/-- First-match association lookup over the column list. -/
def getColAux : List (String × List Val) → String → List Val
  | [], _ => []
  | (k, v) :: rest, n => bif k == n then v else getColAux rest n

/-- The first column labelled `n` (pandas `df[n]` when the label is
unique); defaults to the empty column. -/
def getCol (df : DataFrame) (n : String) : List Val := getColAux df.cols n

/-- How many columns carry label `n`. -/
def countCol (df : DataFrame) (n : String) : Nat :=
  (df.cols.filter (fun p => p.1 == n)).length

/-- Pandas `df.empty`: true when either axis has length zero. -/
def dfEmpty (df : DataFrame) : Bool := df.nrows == 0 || df.cols.isEmpty

/-- Broadcast scalar assignment `df[n] = v`: overwrite every column
labelled `n`, or append a new one when the label is absent. -/
def setColScalar (df : DataFrame) (n : String) (v : Val) : DataFrame :=
  bif hasCol df n then
    ⟨df.nrows, df.cols.map (fun p => bif p.1 == n then (p.1, List.replicate df.nrows v) else p)⟩
  else
    ⟨df.nrows, df.cols ++ [(n, List.replicate df.nrows v)]⟩

/-- Column assignment `df[n] = vals` (only used with the label present). -/
def setColValues (df : DataFrame) (n : String) (vals : List Val) : DataFrame :=
  ⟨df.nrows, df.cols.map (fun p => bif p.1 == n then (p.1, vals) else p)⟩

/-- Pandas `df.rename(columns={a: b})`: relabel every column called `a`;
a silent no-op when the label is absent. -/
def renameCol (df : DataFrame) (a b : String) : DataFrame :=
  ⟨df.nrows, df.cols.map (fun p => bif p.1 == a then (b, p.2) else p)⟩

/-- Pandas `df[sel]` label-list selection: for each requested label, all
columns carrying it, in their original order. -/
def selectCols (df : DataFrame) (sel : List String) : DataFrame :=
  ⟨df.nrows, sel.flatMap (fun n => df.cols.filter (fun p => p.1 == n))⟩

/-- Prefix test on character lists. -/
def startsWithL : List Char → List Char → Bool
  | [], _ => true
  | _ :: _, [] => false
  | a :: as, b :: bs => a == b && startsWithL as bs

/-- Substring containment on character lists. -/
def containsSubL (pat : List Char) : List Char → Bool
  | [] => startsWithL pat []
  | c :: rest => startsWithL pat (c :: rest) || containsSubL pat rest

/-- Python `pat in s` substring containment. -/
def strContains (s pat : String) : Bool := containsSubL pat.data s.data

/-- Python `s.lower()`. -/
def lowerStr (s : String) : String := ⟨s.data.map Char.toLower⟩

/-- Model of the external date parser (`pandas.to_datetime` on one
value), restricted to ISO `YYYY-MM-DD` strings; the development only
relies on the existence of parseable and of unparsable values.
Timestamps parse to themselves and missing values to `NaT`. -/
def parseDate (s : String) : Option Nat :=
  match s.data with
  | [y1, y2, y3, y4, h1, m1, m2, h2, d1, d2] =>
    bif h1 == '-' && h2 == '-' && [y1, y2, y3, y4, m1, m2, d1, d2].all Char.isDigit then
      let y := ((y1.toNat - 48) * 10 + (y2.toNat - 48)) * 100
        + (y3.toNat - 48) * 10 + (y4.toNat - 48)
      let mo := (m1.toNat - 48) * 10 + (m2.toNat - 48)
      let da := (d1.toNat - 48) * 10 + (d2.toNat - 48)
      bif 1 ≤ mo && mo ≤ 12 && 1 ≤ da && da ≤ 31 then
        some (y * 10000 + mo * 100 + da)
      else none
    else none
  | _ => none

/-- `pandas.to_datetime` on a single value. -/
def toDatetimeVal : Val → Option Val
  | .str s => (parseDate s).map Val.dt
  | .dt t => some (.dt t)
  | .na => some .na

/-- `pandas.to_datetime` on a column: succeeds iff every value parses
(the default `errors="raise"` mode), elementwise. -/
def toDatetimeCol : List Val → Option (List Val)
  | [] => some []
  | v :: vs =>
    match toDatetimeVal v, toDatetimeCol vs with
    | some w, some ws => some (w :: ws)
    | _, _ => none

/-- Whether a value is representable in a `datetime64` column. -/
def isDtLike : Val → Bool
  | .dt _ => true
  | .na => true
  | .str _ => false

/-- `pandas.api.types.is_datetime64_any_dtype` of a column. -/
def isDatetimeDtypeCol (l : List Val) : Bool := l.all isDtLike

/-- Dtype test of `df[n]`: with duplicate labels the selection is a
two-column frame, which is never of datetime dtype. -/
def isDatetimeSel (df : DataFrame) (n : String) : Bool :=
  countCol df n == 1 && isDatetimeDtypeCol (getCol df n)

/-- `pandas.to_datetime(df[n])`: with duplicate labels the selection is
a frame lacking year/month/day components, so the call raises (`none`). -/
def toDatetimeSel (df : DataFrame) (n : String) : Option (List Val) :=
  bif countCol df n == 1 then toDatetimeCol (getCol df n) else none

/-- Python truthiness of an optional string argument (`if text_col:`):
`None` and the empty string are falsy. -/
def truthyArg : Option String → Bool
  | some s => !(s == "")
  | none => false

/-- `'text' in col.lower() or 'comment' in col.lower()` (helpers.py line 43). -/
def textNameHeur (c : String) : Bool :=
  strContains (lowerStr c) "text" || strContains (lowerStr c) "comment"

/-- `'date' in col.lower() or 'time' in col.lower()` (helpers.py line 57). -/
def dateNameHeur (c : String) : Bool :=
  strContains (lowerStr c) "date" || strContains (lowerStr c) "time"

/-- Text-column resolution, helpers.py lines 31-44. -/
def resolveTextColumn (df : DataFrame) (text_col : Option String) : Option String :=
  bif truthyArg text_col then text_col
  else bif hasCol df "comment_text" then some "comment_text"
  else bif hasCol df "self_text" then some "self_text"
  else bif hasCol df "lead_paragraph" then some "lead_paragraph"
  else bif hasCol df "text" then some "text"
  else (colNames df).find? textNameHeur

/-- Date-column resolution, helpers.py lines 47-58. -/
def resolveDateColumn (df : DataFrame) (date_col : Option String) : Option String :=
  bif truthyArg date_col then date_col
  else bif hasCol df "date" then some "date"
  else bif hasCol df "created_time" then some "created_time"
  else bif hasCol df "pub_date" then some "pub_date"
  else (colNames df).find? dateNameHeur

/-- helpers.py line 89. -/
def required_columns : List String := ["text", "date", "source"]

/-- helpers.py line 90. -/
def optional_columns : List String := ["author", "sentiment", "sentiment_score", "emotion_words"]

/-- Text standardisation step, helpers.py lines 60-65 (`result` is `r`,
the original frame is `df`). -/
def standardize_textStep (df r : DataFrame) (tcol : Option String) : DataFrame :=
  bif truthyArg tcol && hasCol df (tcol.getD "") then
    renameCol r (tcol.getD "") "text"
  else bif !hasCol r "text" then
    setColScalar r "text" (Val.str "")
  else r

/-- Date standardisation step, helpers.py lines 67-79.  The access
`result['date']` on line 72 is outside any `try`, so it raises a
`KeyError` when the rename silently failed to produce a `date` column. -/
def standardize_dateStep (df r : DataFrame) (dcol : Option String) (now : Nat) :
    Except String DataFrame :=
  bif truthyArg dcol && hasCol df (dcol.getD "") then
    let r3 := renameCol r (dcol.getD "") "date"
    bif !hasCol r3 "date" then .error "KeyError"
    else bif !isDatetimeSel r3 "date" then
      match toDatetimeSel r3 "date" with
      | some parsed => .ok (setColValues r3 "date" parsed)
      | none => .ok r3
    else .ok r3
  else bif !hasCol r "date" then .ok (setColScalar r "date" (Val.dt now))
  else .ok r

/-- Final date normalisation, helpers.py lines 81-86: re-parse, with a
whole-column current-timestamp fallback on failure. -/
def standardize_finalDate (r : DataFrame) (now : Nat) : DataFrame :=
  bif hasCol r "date" then
    match toDatetimeSel r "date" with
    | some parsed => setColValues r "date" parsed
    | none => setColScalar r "date" (Val.dt now)
  else r

/-- Column projection, helpers.py lines 88-93; `result[available_columns]`
raises a `KeyError` when a required column is absent. -/
def standardize_project (r : DataFrame) : Except String DataFrame :=
  let avail := required_columns ++ optional_columns.filter (fun c => hasCol r c)
  bif avail.all (fun c => hasCol r c) then .ok (selectCols r avail) else .error "KeyError"

/-- `standardize_dataframe(df, source, text_col, date_col)` from
helpers.py lines 9-93, with the observed clock made explicit. -/
def standardize_dataframe (df : DataFrame) (source : String)
    (text_col date_col : Option String) (now : Nat) : Except String DataFrame :=
  bif dfEmpty df then .ok ⟨0, [("text", []), ("date", []), ("source", [])]⟩
  else
    let r1 := setColScalar df "source" (Val.str source)
    let r2 := standardize_textStep df r1 (resolveTextColumn df text_col)
    match standardize_dateStep df r2 (resolveDateColumn df date_col) now with
    | .error e => .error e
    | .ok r4 => standardize_project (standardize_finalDate r4 now)

/-- Keep the first occurrence of each label (deterministic stand-in for
the iteration order of a Python `set` of labels). -/
def dedupAux : List String → List String → List String
  | _, [] => []
  | seen, c :: rest =>
    bif seen.contains c then dedupAux seen rest
    else c :: dedupAux (c :: seen) rest

/-- First-occurrence deduplication of a label list. -/
def dedupKeepFirst (l : List String) : List String := dedupAux [] l

/-- Order-preserving intersection of label lists. -/
def listInter (a b : List String) : List String := a.filter (fun c => b.contains c)

/-- The column a concatenation produces for label `n`: each frame
contributes its own `n` column, or missing values for its rows. -/
def concatBlock (l : List DataFrame) (n : String) : List Val :=
  l.flatMap (fun df => bif hasCol df n then getCol df n else List.replicate df.nrows Val.na)

/-- `pandas.concat(l, ignore_index=True)`: row counts add, columns are
the union in order of first appearance, and a frame lacking a column
contributes missing values for its rows. -/
def pdConcat (l : List DataFrame) : DataFrame :=
  ⟨(l.map DataFrame.nrows).sum,
   (dedupKeepFirst (l.flatMap colNames)).map (fun n => (n, concatBlock l n))⟩

/-- The set-intersection of the inputs' column names, helpers.py lines
184-186 (`common_columns` before the required ones are forced in). -/
def mergeCommon0 (l : List DataFrame) : List String :=
  match l with
  | [] => []
  | df0 :: rest =>
    rest.foldl (fun acc df => listInter acc (colNames df)) (dedupKeepFirst (colNames df0))

/-- helpers.py lines 188-192: force `text`, `date`, `source` into the
common set. -/
def mergeCommon (l : List DataFrame) : List String :=
  required_columns.foldl (fun acc c => bif acc.contains c then acc else acc ++ [c])
    (mergeCommon0 l)

/-- `merge_dataframes(df_list, preserve_columns)` from helpers.py lines
162-200.  The Python source iterates a `set` of column names; the
embedding fixes a deterministic first-occurrence order, which affects
only column order, never membership, row counts or values. -/
def merge_dataframes (l : List DataFrame) (preserve_columns : Bool) : DataFrame :=
  bif l.isEmpty then ⟨0, []⟩
  else bif l.length == 1 then l.headD ⟨0, []⟩
  else bif preserve_columns then pdConcat l
  else pdConcat (l.map (fun df => selectCols df ((mergeCommon l).filter (fun c => hasCol df c))))

deriving instance DecidableEq for Except

/-- Provenance of an output column with respect to the input table:
a constant (broadcast) column, an input column passed through
unchanged, or the elementwise datetime parse of an input column.  In
every case row `i` of the column is derived from row `i` of the
input. -/
def colProv (df : DataFrame) (w : List Val) : Prop :=
  (∃ v, w = List.replicate df.nrows v) ∨
  (∃ n, (n, w) ∈ df.cols) ∨
  (∃ n u, (n, u) ∈ df.cols ∧ toDatetimeCol u = some w)

/-- Every column of `r` has provenance in `df`, and the row count is
that of `df`. -/
def provAll (df r : DataFrame) : Prop :=
  r.nrows = df.nrows ∧ ∀ p ∈ r.cols, colProv df p.2

/-! ### Basic lemmas about the `DataFrame` operations -/

theorem bool_eq_of_iff {a b : Bool} (h : a = true ↔ b = true) : a = b := by
  cases a <;> cases b <;> simp_all

@[simp]
theorem nrows_setColScalar (df : DataFrame) (n : String) (v : Val) :
    (setColScalar df n v).nrows = df.nrows := by
  unfold setColScalar
  cases hasCol df n <;> rfl

@[simp]
theorem nrows_setColValues (df : DataFrame) (n : String) (w : List Val) :
    (setColValues df n w).nrows = df.nrows := rfl

@[simp]
theorem nrows_renameCol (df : DataFrame) (a b : String) :
    (renameCol df a b).nrows = df.nrows := rfl

@[simp]
theorem nrows_selectCols (df : DataFrame) (sel : List String) :
    (selectCols df sel).nrows = df.nrows := rfl

theorem strBeqComm (a b : String) : (a == b) = (b == a) := by
  cases h : a == b
  · cases h2 : b == a
    · rfl
    · have h3 : b = a := by simpa using h2
      subst h3
      simp at h
  · have h3 : a = b := by simpa using h
    subst h3
    simp

theorem hasCol_iff (df : DataFrame) (n : String) :
    hasCol df n = true ↔ n ∈ colNames df := by
  unfold hasCol
  exact List.elem_iff

theorem mem_colNames (df : DataFrame) (n : String) :
    n ∈ colNames df ↔ ∃ v, (n, v) ∈ df.cols := by
  unfold colNames
  constructor
  · intro h
    rcases List.mem_map.mp h with ⟨p, hp, he⟩
    exact ⟨p.2, by simpa [← he] using hp⟩
  · rintro ⟨v, hv⟩
    exact List.mem_map.mpr ⟨(n, v), hv, rfl⟩

theorem getColAux_not_contains (cols : List (String × List Val)) (m : String)
    (h : (cols.map Prod.fst).contains m = false) : getColAux cols m = [] := by
  induction cols with
  | nil => rfl
  | cons p rest ih =>
    rcases p with ⟨k, u⟩
    simp only [List.map_cons, List.contains_cons, Bool.or_eq_false_iff] at h
    simp only [getColAux, strBeqComm k m, h.1, Bool.cond_false]
    exact ih h.2

theorem getColAux_append (xs ys : List (String × List Val)) (m : String) :
    getColAux (xs ++ ys) m =
      bif (xs.map Prod.fst).contains m then getColAux xs m else getColAux ys m := by
  induction xs with
  | nil => simp [getColAux]
  | cons p rest ih =>
    rcases p with ⟨k, u⟩
    simp only [List.cons_append, getColAux, List.map_cons, List.contains_cons, strBeqComm m k]
    cases hk : k == m
    · simp only [hk, Bool.cond_false, Bool.false_or]
      exact ih
    · simp only [hk, Bool.cond_true, Bool.true_or]

theorem getColAux_replace (cols : List (String × List Val)) (n m : String) (w : List Val) :
    getColAux (cols.map (fun p => bif p.1 == n then (p.1, w) else p)) m =
      bif n == m then (bif (cols.map Prod.fst).contains n then w else [])
      else getColAux cols m := by
  induction cols with
  | nil => cases hnm : n == m <;> simp [getColAux, hnm]
  | cons p rest ih =>
    rcases p with ⟨k, u⟩
    simp only [List.map_cons, List.contains_cons]
    cases hk : k == n
    · have hkn : k ≠ n := by simpa using hk
      simp only [hk, Bool.cond_false, getColAux, ih, strBeqComm n k,
        beq_eq_false_iff_ne.mpr (Ne.symm hkn), Bool.false_or]
      cases hm : k == m
      · simp only [Bool.cond_false]
      · have hkm : k = m := by simpa using hm
        subst hkm
        simp only [Bool.cond_true, beq_eq_false_iff_ne.mpr (fun he => hkn he.symm),
          Bool.cond_false]
    · have hkn : k = n := by simpa using hk
      subst hkn
      simp only [hk, Bool.cond_true, getColAux, beq_self_eq_true, Bool.true_or]
      cases hm : k == m
      · simp only [hm, Bool.cond_false]
        rw [ih, hm]
        simp only [Bool.cond_false]
      · simp only [hm, Bool.cond_true]

theorem colNames_map_replace (cols : List (String × List Val)) (n : String)
    (g : String × List Val → List Val) :
    (cols.map (fun p => bif p.1 == n then (p.1, g p) else p)).map Prod.fst =
      cols.map Prod.fst := by
  induction cols with
  | nil => rfl
  | cons p rest ih =>
    rcases p with ⟨k, u⟩
    cases hk : k == n
    · simp only [List.map_cons, hk, Bool.cond_false, ih]
    · simp only [List.map_cons, hk, Bool.cond_true, ih]

theorem colNames_setColValues (df : DataFrame) (n : String) (w : List Val) :
    colNames (setColValues df n w) = colNames df := by
  unfold colNames setColValues
  exact colNames_map_replace df.cols n (fun _ => w)

theorem hasCol_setColValues (df : DataFrame) (n m : String) (w : List Val) :
    hasCol (setColValues df n w) m = hasCol df m := by
  unfold hasCol
  rw [colNames_setColValues]

theorem getCol_setColValues (df : DataFrame) (n m : String) (w : List Val) :
    getCol (setColValues df n w) m =
      bif n == m then (bif hasCol df n then w else []) else getCol df m := by
  unfold getCol setColValues hasCol colNames
  exact getColAux_replace df.cols n m w

theorem colNames_setColScalar (df : DataFrame) (n : String) (v : Val) :
    colNames (setColScalar df n v) =
      bif hasCol df n then colNames df else colNames df ++ [n] := by
  unfold setColScalar
  cases h : hasCol df n
  · simp only [Bool.cond_false]
    unfold colNames
    simp
  · simp only [Bool.cond_true]
    unfold colNames
    exact colNames_map_replace df.cols n (fun _ => List.replicate df.nrows v)

theorem hasCol_setColScalar (df : DataFrame) (n m : String) (v : Val) :
    hasCol (setColScalar df n v) m = (hasCol df m || m == n) := by
  refine bool_eq_of_iff ?_
  rw [hasCol_iff, colNames_setColScalar]
  cases h : hasCol df n
  · simp only [Bool.cond_false, List.mem_append, List.mem_singleton]
    constructor
    · rintro (hm | rfl)
      · simp [(hasCol_iff df m).mpr hm]
      · simp
    · intro hb
      rcases Bool.or_eq_true_iff.mp hb with hb | hb
      · exact .inl ((hasCol_iff df m).mp hb)
      · exact .inr (by simpa using hb)
  · simp only [Bool.cond_true]
    constructor
    · intro hm
      simp [(hasCol_iff df m).mpr hm]
    · intro hb
      rcases Bool.or_eq_true_iff.mp hb with hb | hb
      · exact (hasCol_iff df m).mp hb
      · have h2 : m = n := by simpa using hb
        subst h2
        exact (hasCol_iff df m).mp h

theorem getCol_setColScalar (df : DataFrame) (n m : String) (v : Val) :
    getCol (setColScalar df n v) m =
      bif n == m then List.replicate df.nrows v else getCol df m := by
  unfold setColScalar
  cases hdf : hasCol df n
  · simp only [hdf, Bool.cond_false]
    show getColAux (df.cols ++ [(n, List.replicate df.nrows v)]) m = _
    rw [getColAux_append]
    have hc : (df.cols.map Prod.fst).contains n = false := hdf
    cases hnm : n == m
    · have hnm2 : n ≠ m := by simpa using hnm
      simp only [hnm, Bool.cond_false]
      cases hcm : (df.cols.map Prod.fst).contains m
      · simp only [hcm, Bool.cond_false, getColAux, beq_eq_false_iff_ne.mpr hnm2]
        exact (getColAux_not_contains _ _ hcm).symm
      · simp only [hcm, Bool.cond_true]
        rfl
    · have hnm2 : n = m := by simpa using hnm
      subst hnm2
      simp only [hc, hnm, Bool.cond_false, Bool.cond_true, getColAux, beq_self_eq_true]
  · simp only [hdf, Bool.cond_true]
    show getColAux (df.cols.map fun p =>
      bif p.1 == n then (p.1, List.replicate df.nrows v) else p) m = _
    rw [getColAux_replace]
    have hc : (df.cols.map Prod.fst).contains n = true := hdf
    cases hnm : n == m
    · simp only [hnm, Bool.cond_false]
      rfl
    · simp only [hnm, hc, Bool.cond_true]

theorem renameCol_not_found (df : DataFrame) (a b : String) (h : hasCol df a = false) :
    renameCol df a b = df := by
  unfold renameCol
  rcases df with ⟨r, cols⟩
  simp only [DataFrame.mk.injEq, true_and]
  unfold hasCol colNames at h
  simp only at h
  induction cols with
  | nil => rfl
  | cons p rest ih =>
    rcases p with ⟨k, u⟩
    simp only [List.map_cons, List.contains_cons, Bool.or_eq_false_iff] at h
    have hk : (k == a) = false := by rw [strBeqComm]; exact h.1
    simp only [List.map_cons, hk, Bool.cond_false]
    rw [ih h.2]

theorem renameCol_self (df : DataFrame) (a : String) : renameCol df a a = df := by
  unfold renameCol
  rcases df with ⟨r, cols⟩
  simp only [DataFrame.mk.injEq, true_and]
  induction cols with
  | nil => rfl
  | cons p rest ih =>
    rcases p with ⟨k, u⟩
    cases hk : k == a
    · simp only [List.map_cons, hk, Bool.cond_false, ih]
    · have h2 : k = a := by simpa using hk
      subst h2
      simp only [List.map_cons, hk, Bool.cond_true, ih]

theorem colNames_renameCol (df : DataFrame) (a b : String) :
    colNames (renameCol df a b) = (colNames df).map (fun x => bif x == a then b else x) := by
  unfold colNames renameCol
  simp only [List.map_map]
  refine List.map_congr_left ?_
  rintro ⟨k, u⟩ _
  cases hk : k == a
  · simp only [Function.comp_apply, hk, Bool.cond_false]
  · simp only [Function.comp_apply, hk, Bool.cond_true]

theorem hasCol_renameCol_other (df : DataFrame) (a b m : String)
    (hma : m ≠ a) (hmb : m ≠ b) : hasCol (renameCol df a b) m = hasCol df m := by
  refine bool_eq_of_iff ?_
  rw [hasCol_iff, hasCol_iff, colNames_renameCol]
  constructor
  · intro h
    rcases List.mem_map.mp h with ⟨x, hx, he⟩
    cases hxa : x == a
    · rw [hxa] at he
      simp only [Bool.cond_false] at he
      exact he ▸ hx
    · rw [hxa] at he
      simp only [Bool.cond_true] at he
      exact absurd he.symm hmb
  · intro h
    refine List.mem_map.mpr ⟨m, h, ?_⟩
    simp [beq_eq_false_iff_ne.mpr hma]

theorem hasCol_renameCol_target (df : DataFrame) (a b : String) :
    hasCol (renameCol df a b) b = (hasCol df a || hasCol df b) := by
  refine bool_eq_of_iff ?_
  rw [hasCol_iff, colNames_renameCol]
  constructor
  · intro h
    rcases List.mem_map.mp h with ⟨x, hx, he⟩
    cases hxa : x == a
    · rw [hxa] at he
      simp only [Bool.cond_false] at he
      exact Bool.or_eq_true_iff.mpr (.inr ((hasCol_iff df b).mpr (he ▸ hx)))
    · have h2 : x = a := by simpa using hxa
      subst h2
      exact Bool.or_eq_true_iff.mpr (.inl ((hasCol_iff df x).mpr hx))
  · intro h
    rcases Bool.or_eq_true_iff.mp h with h | h
    · refine List.mem_map.mpr ⟨a, (hasCol_iff df a).mp h, ?_⟩
      simp
    · refine List.mem_map.mpr ⟨b, (hasCol_iff df b).mp h, ?_⟩
      cases hba : b == a
      · simp [hba]
      · have h2 : b = a := by simpa using hba
        simp [h2]

theorem hasCol_renameCol_src (df : DataFrame) (a b : String) (hab : a ≠ b) :
    hasCol (renameCol df a b) a = false := by
  refine Bool.eq_false_iff.mpr fun hc => ?_
  rw [hasCol_iff, colNames_renameCol] at hc
  rcases List.mem_map.mp hc with ⟨x, _, he⟩
  cases hxa : x == a
  · rw [hxa] at he
    simp only [Bool.cond_false] at he
    subst he
    simp at hxa
  · rw [hxa] at he
    simp only [Bool.cond_true] at he
    exact hab he.symm

theorem getCol_renameCol_other (df : DataFrame) (a b m : String)
    (hma : m ≠ a) (hmb : m ≠ b) : getCol (renameCol df a b) m = getCol df m := by
  unfold getCol renameCol
  induction df.cols with
  | nil => rfl
  | cons p rest ih =>
    rcases p with ⟨k, u⟩
    cases hk : k == a
    · simp only [List.map_cons, hk, Bool.cond_false, getColAux, ih]
    · have h2 : k = a := by simpa using hk
      subst h2
      simp only [List.map_cons, hk, Bool.cond_true, getColAux,
        beq_eq_false_iff_ne.mpr (Ne.symm hmb), beq_eq_false_iff_ne.mpr (fun he => hma he.symm),
        Bool.cond_false, ih]

theorem getCol_renameCol_target (df : DataFrame) (a b : String)
    (hb : hasCol df b = false) : getCol (renameCol df a b) b = getCol df a := by
  unfold getCol renameCol
  unfold hasCol colNames at hb
  rcases df with ⟨r, cols⟩
  simp only at hb ⊢
  induction cols with
  | nil => rfl
  | cons p rest ih =>
    rcases p with ⟨k, u⟩
    simp only [List.map_cons, List.contains_cons, Bool.or_eq_false_iff] at hb
    have hkb : (k == b) = false := by rw [strBeqComm]; exact hb.1
    cases hk : k == a
    · simp only [List.map_cons, hk, Bool.cond_false, getColAux, hkb, ih hb.2]
    · simp only [List.map_cons, hk, Bool.cond_true, getColAux, beq_self_eq_true, Bool.cond_true]

theorem countCol_eq_zero (df : DataFrame) (n : String) :
    countCol df n = 0 ↔ hasCol df n = false := by
  unfold countCol hasCol colNames
  rw [List.length_eq_zero, List.filter_eq_nil_iff]
  constructor
  · intro h
    refine Bool.eq_false_iff.mpr fun hc => ?_
    rcases List.mem_map.mp (List.elem_iff.mp hc) with ⟨p, hp, he⟩
    exact absurd (by simpa using he : (p.1 == n) = true) (by simpa using h p hp)
  · intro h p hp
    intro hc
    have : n ∈ df.cols.map Prod.fst := List.mem_map.mpr ⟨p, hp, by simpa using hc⟩
    exact absurd (List.elem_iff.mpr this) (Bool.eq_false_iff.mp h)

theorem countCol_le_one_of_nodup (df : DataFrame) (h : wfNames df) (n : String) :
    countCol df n ≤ 1 := by
  unfold countCol
  unfold wfNames at h
  rcases df with ⟨r, cols⟩
  simp only at h ⊢
  induction cols with
  | nil => simp
  | cons p rest ih =>
    rcases p with ⟨k, u⟩
    simp only [List.map_cons, List.nodup_cons] at h
    cases hk : k == n
    · simp only [List.filter_cons, hk, Bool.false_eq_true, if_false]
      exact ih h.2
    · have h2 : k = n := by simpa using hk
      subst h2
      simp only [List.filter_cons, hk, if_true, List.length_cons]
      have hz : (rest.filter (fun p => p.1 == k)).length = 0 := by
        rw [List.length_eq_zero, List.filter_eq_nil_iff]
        intro p hp hc
        exact h.1 (List.mem_map.mpr ⟨p, hp, by simpa using hc⟩)
      simp [hz]

theorem countCol_setColValues (df : DataFrame) (n m : String) (w : List Val) :
    countCol (setColValues df n w) m = countCol df m := by
  unfold countCol setColValues
  induction df.cols with
  | nil => rfl
  | cons p rest ih =>
    rcases p with ⟨k, u⟩
    cases hk : k == n <;> cases hkm : k == m <;>
      simp [List.filter_cons, hk, hkm, ih]

theorem countCol_setColScalar_found (df : DataFrame) (n m : String) (v : Val)
    (h : hasCol df n = true) : countCol (setColScalar df n v) m = countCol df m := by
  unfold setColScalar
  rw [h]
  simp only [Bool.cond_true]
  unfold countCol
  induction df.cols with
  | nil => rfl
  | cons p rest ih =>
    rcases p with ⟨k, u⟩
    cases hk : k == n <;> cases hkm : k == m <;>
      simp [List.filter_cons, hk, hkm, ih]

theorem countCol_setColScalar_new (df : DataFrame) (n m : String) (v : Val)
    (h : hasCol df n = false) :
    countCol (setColScalar df n v) m = countCol df m + (bif n == m then 1 else 0) := by
  unfold setColScalar
  rw [h]
  simp only [Bool.cond_false]
  unfold countCol
  simp only [List.filter_append, List.length_append]
  cases hnm : n == m
  · simp [hnm, List.filter_cons]
  · simp [hnm, List.filter_cons]

theorem countCol_renameCol_other (df : DataFrame) (a b m : String)
    (hma : m ≠ a) (hmb : m ≠ b) : countCol (renameCol df a b) m = countCol df m := by
  unfold countCol renameCol
  induction df.cols with
  | nil => rfl
  | cons p rest ih =>
    rcases p with ⟨k, u⟩
    cases hk : k == a
    · cases hkm : k == m <;> simp [List.filter_cons, hk, hkm, ih]
    · have h2 : k = a := by simpa using hk
      subst h2
      simp [List.filter_cons, hk, beq_eq_false_iff_ne.mpr (fun he => hmb he.symm),
        beq_eq_false_iff_ne.mpr (fun he => hma he.symm), ih]

theorem countCol_renameCol_target (df : DataFrame) (a b : String) (hab : a ≠ b) :
    countCol (renameCol df a b) b = countCol df a + countCol df b := by
  unfold countCol renameCol
  induction df.cols with
  | nil => rfl
  | cons p rest ih =>
    rcases p with ⟨k, u⟩
    cases hk : k == a
    · cases hkb : k == b
      · simp [List.filter_cons, hk, hkb, ih]
      · simp only [List.map_cons, hk, Bool.cond_false, List.filter_cons, hkb, if_true,
          Bool.false_eq_true, if_false, List.length_cons, ih]
        omega
    · have h2 : k = a := by simpa using hk
      subst h2
      simp only [List.map_cons, hk, Bool.cond_true, List.filter_cons, beq_self_eq_true, if_true,
        beq_eq_false_iff_ne.mpr hab, Bool.false_eq_true, if_false, List.length_cons, ih]
      omega

theorem getColAux_filter_self (cols : List (String × List Val)) (s : String) :
    getColAux (cols.filter (fun p => p.1 == s)) s = getColAux cols s := by
  induction cols with
  | nil => rfl
  | cons p rest ih =>
    rcases p with ⟨k, u⟩
    cases hk : k == s
    · simp only [List.filter_cons, hk, Bool.false_eq_true, if_false, ih, getColAux,
        Bool.cond_false]
    · simp only [List.filter_cons, hk, if_true, getColAux, Bool.cond_true]

theorem filter_block_names (cols : List (String × List Val)) (s m : String) :
    ((cols.filter (fun p => p.1 == s)).map Prod.fst).contains m =
      (m == s && (cols.map Prod.fst).contains s) := by
  induction cols with
  | nil => simp
  | cons p rest ih =>
    rcases p with ⟨k, u⟩
    cases hk : k == s
    · simp only [List.filter_cons, hk, Bool.false_eq_true, if_false, ih, List.map_cons,
        List.contains_cons, strBeqComm s k, hk, Bool.false_or]
    · have h2 : k = s := by simpa using hk
      subst h2
      cases hmk : m == k
      · simp only [List.filter_cons, hk, if_true, List.map_cons, List.contains_cons, hmk,
          Bool.false_or, ih, Bool.false_and, beq_self_eq_true, Bool.true_or, Bool.and_true]
      · simp only [List.filter_cons, hk, if_true, List.map_cons, List.contains_cons, hmk,
          Bool.true_or, Bool.true_and, beq_self_eq_true]

theorem getCol_selectCols (df : DataFrame) (sel : List String) (m : String) :
    getCol (selectCols df sel) m = bif sel.contains m then getCol df m else [] := by
  unfold getCol selectCols
  induction sel with
  | nil => simp [getColAux]
  | cons s rest ih =>
    simp only
    rw [List.flatMap_cons, getColAux_append, filter_block_names]
    cases hms : m == s
    · simp only [hms, Bool.false_and, Bool.cond_false, ih, List.contains_cons, hms,
        Bool.false_or]
    · have h2 : m = s := by simpa using hms
      subst h2
      cases hc : (df.cols.map Prod.fst).contains m
      · simp only [hms, Bool.true_and, hc, Bool.cond_false, ih, List.contains_cons,
          beq_self_eq_true, Bool.true_or, Bool.cond_true, getColAux_not_contains _ _ hc]
        cases hr : rest.contains m <;> simp [hr]
      · simp only [hms, Bool.true_and, hc, Bool.cond_true, getColAux_filter_self,
          List.contains_cons, beq_self_eq_true, Bool.true_or]

theorem mem_cols_selectCols (df : DataFrame) (sel : List String) (p : String × List Val) :
    p ∈ (selectCols df sel).cols ↔ p.1 ∈ sel ∧ p ∈ df.cols := by
  unfold selectCols
  simp only [List.mem_flatMap, List.mem_filter]
  constructor
  · rintro ⟨n, hn, hp, he⟩
    have h2 : p.1 = n := by simpa using he
    exact ⟨h2 ▸ hn, hp⟩
  · rintro ⟨h1, h2⟩
    exact ⟨p.1, h1, h2, by simp⟩

theorem hasCol_selectCols (df : DataFrame) (sel : List String) (m : String) :
    hasCol (selectCols df sel) m = (sel.contains m && hasCol df m) := by
  refine bool_eq_of_iff ?_
  rw [hasCol_iff, mem_colNames, Bool.and_eq_true]
  constructor
  · rintro ⟨v, hv⟩
    rcases (mem_cols_selectCols df sel (m, v)).mp hv with ⟨h1, h2⟩
    exact ⟨List.elem_iff.mpr h1, (hasCol_iff df m).mpr ((mem_colNames df m).mpr ⟨v, h2⟩)⟩
  · rintro ⟨h1, h2⟩
    rcases (mem_colNames df m).mp ((hasCol_iff df m).mp h2) with ⟨v, hv⟩
    exact ⟨v, (mem_cols_selectCols df sel (m, v)).mpr ⟨List.elem_iff.mp h1, hv⟩⟩

theorem colNames_selectCols (df : DataFrame) (sel : List String)
    (hle : ∀ x, countCol df x ≤ 1) :
    colNames (selectCols df sel) = sel.filter (fun n => hasCol df n) := by
  unfold colNames selectCols
  induction sel with
  | nil => rfl
  | cons s rest ih =>
    simp only
    rw [List.flatMap_cons, List.map_append, List.filter_cons]
    cases hs : hasCol df s
    · have h0 : df.cols.filter (fun q => q.1 == s) = [] := by
        have hz := (countCol_eq_zero df s).mpr hs
        unfold countCol at hz
        exact List.length_eq_zero.mp hz
      simp only [h0, List.map_nil, List.nil_append, Bool.false_eq_true, if_false]
      exact ih
    · have h1 : countCol df s = 1 := by
        have h2 := hle s
        have h3 : countCol df s ≠ 0 := fun hz => by
          rw [(countCol_eq_zero df s).mp hz] at hs
          cases hs
        omega
      unfold countCol at h1
      obtain ⟨p, hp⟩ := List.length_eq_one.mp h1
      have hps : p.1 = s := by
        have hmem : p ∈ df.cols.filter (fun q => q.1 == s) := by rw [hp]; simp
        simpa using (List.mem_filter.mp hmem).2
      simp only [hp, List.map_cons, List.map_nil, List.cons_append, List.nil_append, hps,
        if_true]
      rw [ih]

theorem toDatetimeVal_dtLike {v w : Val} (h : toDatetimeVal v = some w) :
    isDtLike w = true := by
  cases v with
  | str s =>
    simp only [toDatetimeVal] at h
    cases hp : parseDate s
    · rw [hp] at h
      simp at h
    · rw [hp] at h
      simp only [Option.map_some'] at h
      cases h
      rfl
  | dt t =>
    cases h
    rfl
  | na =>
    cases h
    rfl

theorem toDatetimeVal_of_dtLike {v : Val} (h : isDtLike v = true) :
    toDatetimeVal v = some v := by
  cases v
  · simp [isDtLike] at h
  · rfl
  · rfl

theorem toDatetimeCol_length {w : List Val} :
    ∀ {p : List Val}, toDatetimeCol w = some p → p.length = w.length := by
  induction w with
  | nil =>
    intro p h
    cases h
    rfl
  | cons v vs ih =>
    intro p h
    unfold toDatetimeCol at h
    cases hv : toDatetimeVal v <;> rw [hv] at h
    · simp at h
    · cases hc : toDatetimeCol vs <;> rw [hc] at h
      · simp at h
      · cases h
        simp [ih hc]

theorem toDatetimeCol_dtLike {w : List Val} :
    ∀ {p : List Val}, toDatetimeCol w = some p → ∀ v ∈ p, isDtLike v = true := by
  induction w with
  | nil =>
    intro p h
    cases h
    intro v hv
    cases hv
  | cons v vs ih =>
    intro p h
    unfold toDatetimeCol at h
    cases hv : toDatetimeVal v <;> rw [hv] at h
    · simp at h
    · cases hc : toDatetimeCol vs <;> rw [hc] at h
      · simp at h
      · cases h
        intro x hx
        rcases List.mem_cons.mp hx with rfl | hx
        · exact toDatetimeVal_dtLike hv
        · exact ih hc x hx

theorem toDatetimeCol_of_dtLike {w : List Val} (h : ∀ v ∈ w, isDtLike v = true) :
    toDatetimeCol w = some w := by
  induction w with
  | nil => rfl
  | cons v vs ih =>
    unfold toDatetimeCol
    rw [toDatetimeVal_of_dtLike (h v (.head _)), ih (fun x hx => h x (.tail _ hx))]

theorem toDatetimeCol_idem {w p : List Val} (h : toDatetimeCol w = some p) :
    toDatetimeCol p = some p :=
  toDatetimeCol_of_dtLike (toDatetimeCol_dtLike h)

theorem toDatetimeCol_replicate (k t : Nat) :
    toDatetimeCol (List.replicate k (Val.dt t)) = some (List.replicate k (Val.dt t)) :=
  toDatetimeCol_of_dtLike (fun v hv => by rw [List.eq_of_mem_replicate hv]; rfl)

theorem mem_dedupAux (l : List String) :
    ∀ (seen : List String) (x : String),
      x ∈ dedupAux seen l ↔ x ∈ l ∧ seen.contains x = false := by
  induction l with
  | nil =>
    intro seen x
    simp [dedupAux]
  | cons c rest ih =>
    intro seen x
    unfold dedupAux
    cases hc : seen.contains c
    · simp only [Bool.cond_false, List.mem_cons]
      constructor
      · rintro (rfl | hx)
        · exact ⟨.inl rfl, hc⟩
        · rcases (ih _ _).mp hx with ⟨h1, h2⟩
          simp only [List.contains_cons, Bool.or_eq_false_iff] at h2
          exact ⟨.inr h1, h2.2⟩
      · rintro ⟨hmem, hs⟩
        by_cases hxc : x = c
        · exact .inl hxc
        · rcases hmem with rfl | hx
          · exact .inl rfl
          · refine .inr ((ih _ _).mpr ⟨hx, ?_⟩)
            simp only [List.contains_cons, Bool.or_eq_false_iff]
            exact ⟨beq_eq_false_iff_ne.mpr hxc, hs⟩
    · rw [Bool.cond_true, ih]
      constructor
      · rintro ⟨h1, h2⟩
        exact ⟨List.mem_cons_of_mem _ h1, h2⟩
      · rintro ⟨hmem, hs⟩
        rcases List.mem_cons.mp hmem with rfl | hx
        · rw [hs] at hc
          cases hc
        · exact ⟨hx, hs⟩

theorem mem_dedupKeepFirst (l : List String) (x : String) :
    x ∈ dedupKeepFirst l ↔ x ∈ l := by
  unfold dedupKeepFirst
  rw [mem_dedupAux]
  simp

theorem nodup_dedupAux (l : List String) : ∀ seen, (dedupAux seen l).Nodup := by
  induction l with
  | nil =>
    intro seen
    simp [dedupAux]
  | cons c rest ih =>
    intro seen
    unfold dedupAux
    cases hc : seen.contains c
    · simp only [Bool.cond_false, List.nodup_cons]
      refine ⟨fun hmem => ?_, ih _⟩
      rcases (mem_dedupAux _ _ _).mp hmem with ⟨_, h2⟩
      simp [List.contains_cons] at h2
    · rw [Bool.cond_true]
      exact ih _

theorem nodup_dedupKeepFirst (l : List String) : (dedupKeepFirst l).Nodup :=
  nodup_dedupAux l []

theorem mem_listInter (a b : List String) (x : String) :
    x ∈ listInter a b ↔ x ∈ a ∧ x ∈ b := by
  unfold listInter
  rw [List.mem_filter]
  simp [List.elem_iff]

theorem mem_foldl_inter (rest : List DataFrame) :
    ∀ (init : List String) (x : String),
      x ∈ rest.foldl (fun acc df => listInter acc (colNames df)) init ↔
        x ∈ init ∧ ∀ df ∈ rest, x ∈ colNames df := by
  induction rest with
  | nil =>
    intro init x
    simp
  | cons d t ih =>
    intro init x
    simp only [List.foldl_cons, ih, mem_listInter]
    constructor
    · rintro ⟨⟨h1, h2⟩, h3⟩
      refine ⟨h1, fun df hdf => ?_⟩
      rcases List.mem_cons.mp hdf with rfl | hdf
      · exact h2
      · exact h3 df hdf
    · rintro ⟨h1, h2⟩
      exact ⟨⟨h1, h2 d (.head _)⟩, fun df hdf => h2 df (.tail _ hdf)⟩

theorem mem_foldl_addReq (req : List String) :
    ∀ (init : List String) (x : String),
      x ∈ req.foldl (fun acc c => bif acc.contains c then acc else acc ++ [c]) init ↔
        x ∈ init ∨ x ∈ req := by
  induction req with
  | nil =>
    intro init x
    simp
  | cons c t ih =>
    intro init x
    simp only [List.foldl_cons]
    cases hc : init.contains c
    · rw [Bool.cond_false, ih]
      simp only [List.mem_append, List.mem_cons, List.not_mem_nil, or_false]
      constructor
      · rintro ((h | rfl) | h)
        · exact .inl h
        · exact .inr (.inl rfl)
        · exact .inr (.inr h)
      · rintro (h | (rfl | h))
        · exact .inl (.inl h)
        · exact .inl (.inr rfl)
        · exact .inr h
    · rw [Bool.cond_true, ih]
      simp only [List.mem_cons]
      constructor
      · rintro (h | h)
        · exact .inl h
        · exact .inr (.inr h)
      · rintro (h | h2)
        · exact .inl h
        · rcases h2 with rfl | h3
          · exact .inl (List.elem_iff.mp hc)
          · exact .inr h3

theorem nrows_pdConcat (l : List DataFrame) :
    (pdConcat l).nrows = (l.map DataFrame.nrows).sum := rfl

theorem colNames_pdConcat (l : List DataFrame) :
    colNames (pdConcat l) = dedupKeepFirst (l.flatMap colNames) := by
  show ((dedupKeepFirst (l.flatMap colNames)).map (fun n => (n, concatBlock l n))).map
    Prod.fst = _
  rw [List.map_map]
  have h : (Prod.fst ∘ fun n => (n, concatBlock l n)) = id := rfl
  rw [h, List.map_id]

theorem getColAux_map_pair (ns : List String) (g : String → List Val) (m : String) :
    getColAux (ns.map (fun n => (n, g n))) m = bif ns.contains m then g m else [] := by
  induction ns with
  | nil => rfl
  | cons s rest ih =>
    simp only [List.map_cons, getColAux, List.contains_cons, strBeqComm m s]
    cases hs : s == m
    · simp only [hs, Bool.cond_false, ih, Bool.false_or]
    · have h2 : s = m := by simpa using hs
      subst h2
      simp [hs]

theorem getCol_pdConcat (l : List DataFrame) (n : String) :
    getCol (pdConcat l) n =
      bif (dedupKeepFirst (l.flatMap colNames)).contains n then concatBlock l n else [] := by
  unfold getCol pdConcat
  exact getColAux_map_pair _ _ _

theorem hasCol_pdConcat (l : List DataFrame) (n : String) :
    hasCol (pdConcat l) n = true ↔ ∃ df ∈ l, hasCol df n = true := by
  rw [hasCol_iff, colNames_pdConcat, mem_dedupKeepFirst, List.mem_flatMap]
  constructor
  · rintro ⟨df, hdf, hn⟩
    exact ⟨df, hdf, (hasCol_iff df n).mpr hn⟩
  · rintro ⟨df, hdf, hn⟩
    exact ⟨df, hdf, (hasCol_iff df n).mp hn⟩

theorem mem_cols_pdConcat (l : List DataFrame) (p : String × List Val) :
    p ∈ (pdConcat l).cols ↔
      p.1 ∈ dedupKeepFirst (l.flatMap colNames) ∧ p.2 = concatBlock l p.1 := by
  unfold pdConcat
  simp only [List.mem_map]
  constructor
  · rintro ⟨n, hn, rfl⟩
    exact ⟨hn, rfl⟩
  · rintro ⟨h1, h2⟩
    refine ⟨p.1, h1, ?_⟩
    rw [← h2]

theorem getCol_eq_of_mem_nodup (df : DataFrame) (h : wfNames df) (p : String × List Val)
    (hp : p ∈ df.cols) : getCol df p.1 = p.2 := by
  unfold getCol
  unfold wfNames at h
  rcases df with ⟨r, cols⟩
  simp only at h hp ⊢
  induction cols with
  | nil => cases hp
  | cons q rest ih =>
    rcases q with ⟨k, u⟩
    simp only [List.map_cons, List.nodup_cons] at h
    rcases List.mem_cons.mp hp with rfl | hp2
    · simp [getColAux]
    · have hk : (k == p.1) = false := by
        refine beq_eq_false_iff_ne.mpr fun he => h.1 ?_
        exact he ▸ List.mem_map.mpr ⟨p, hp2, rfl⟩
      simp only [getColAux, hk, Bool.cond_false]
      exact ih h.2 hp2

theorem concatBlock_single (df : DataFrame) (n : String) :
    concatBlock [df] n =
      bif hasCol df n then getCol df n else List.replicate df.nrows Val.na := by
  unfold concatBlock
  simp

theorem concatBlock_map_select (l : List DataFrame) (sel : DataFrame → List String) (n : String)
    (h : ∀ df ∈ l, hasCol df n = true → (sel df).contains n = true) :
    concatBlock (l.map (fun df => selectCols df (sel df))) n = concatBlock l n := by
  unfold concatBlock
  induction l with
  | nil => rfl
  | cons d t ih =>
    simp only [List.map_cons, List.flatMap_cons]
    rw [hasCol_selectCols, getCol_selectCols, nrows_selectCols,
      ih (fun df hdf => h df (List.mem_cons_of_mem _ hdf))]
    cases hd : hasCol d n
    · simp only [hd, Bool.and_false, Bool.cond_false]
    · have hs := h d (List.mem_cons_self _ _) hd
      simp only [hd, hs, Bool.true_and, Bool.and_self, Bool.cond_true]

/-- Row count and column values of `merge` over frames with unique
labels: row counts add and every output column is the in-order
concatenation of the inputs' contributions. -/
theorem merge_shape (l : List DataFrame) (pc : Bool) (hwf : ∀ df ∈ l, wfNames df) :
    (merge_dataframes l pc).nrows = (l.map DataFrame.nrows).sum ∧
      ∀ p ∈ (merge_dataframes l pc).cols, p.2 = concatBlock l p.1 := by
  rcases l with _ | ⟨d1, l2⟩
  · constructor
    · rfl
    · intro p hp
      cases hp
  rcases l2 with _ | ⟨d2, r⟩
  · have hm : merge_dataframes [d1] pc = d1 := by
      unfold merge_dataframes
      simp
    rw [hm]
    constructor
    · simp
    · intro p hp
      rw [concatBlock_single]
      have hc : hasCol d1 p.1 = true := by
        rw [hasCol_iff, mem_colNames]
        exact ⟨p.2, hp⟩
      rw [hc, Bool.cond_true]
      exact (getCol_eq_of_mem_nodup d1 (hwf d1 (List.mem_cons_self _ _)) p hp).symm
  · have hlen : (((d1 :: d2 :: r) : List DataFrame).length == 1) = false := by
      refine beq_eq_false_iff_ne.mpr ?_
      simp
    cases pc
    · have hm : merge_dataframes (d1 :: d2 :: r) false =
          pdConcat ((d1 :: d2 :: r).map (fun df =>
            selectCols df ((mergeCommon (d1 :: d2 :: r)).filter (fun c => hasCol df c)))) := by
        unfold merge_dataframes mergeCommon mergeCommon0
        simp only [List.isEmpty_cons, Bool.cond_false, hlen]
      rw [hm]
      constructor
      · rw [nrows_pdConcat, List.map_map]
        congr 1
      · intro p hp
        rcases (mem_cols_pdConcat _ p).mp hp with ⟨h1, h2⟩
        rw [h2]
        refine concatBlock_map_select _ _ _ ?_
        rw [mem_dedupKeepFirst, List.mem_flatMap] at h1
        rcases h1 with ⟨dfp, hdfp, hnp⟩
        rcases List.mem_map.mp hdfp with ⟨df0, hdf0, rfl⟩
        have hin : p.1 ∈ mergeCommon (d1 :: d2 :: r) := by
          have := (hasCol_iff _ p.1).mpr hnp
          rw [hasCol_selectCols, Bool.and_eq_true] at this
          rcases List.mem_filter.mp (List.elem_iff.mp this.1) with ⟨hmem, _⟩
          exact hmem
        intro df hdf hcdf
        refine List.elem_iff.mpr (List.mem_filter.mpr ⟨hin, hcdf⟩)
    · have hm : merge_dataframes (d1 :: d2 :: r) true = pdConcat (d1 :: d2 :: r) := by
        unfold merge_dataframes
        simp only [List.isEmpty_cons, Bool.cond_false, hlen, Bool.cond_true]
      rw [hm]
      constructor
      · rw [nrows_pdConcat]
      · intro p hp
        exact ((mem_cols_pdConcat _ p).mp hp).2

theorem merge_eq_intersect (d1 d2 : DataFrame) (r : List DataFrame) :
    merge_dataframes (d1 :: d2 :: r) false =
      pdConcat ((d1 :: d2 :: r).map (fun df =>
        selectCols df ((mergeCommon (d1 :: d2 :: r)).filter (fun c => hasCol df c)))) := by
  unfold merge_dataframes
  have hlen : (((d1 :: d2 :: r) : List DataFrame).length == 1) = false := by
    refine beq_eq_false_iff_ne.mpr ?_
    simp
  simp only [List.isEmpty_cons, Bool.cond_false, hlen]

theorem mem_mergeCommon (d1 d2 : DataFrame) (r : List DataFrame) (c : String) :
    c ∈ mergeCommon (d1 :: d2 :: r) ↔
      (∀ df ∈ (d1 :: d2 :: r : List DataFrame), hasCol df c = true) ∨
        c ∈ required_columns := by
  unfold mergeCommon mergeCommon0
  rw [mem_foldl_addReq, mem_foldl_inter, mem_dedupKeepFirst]
  constructor
  · rintro (⟨h1, h2⟩ | h)
    · refine .inl fun df hdf => ?_
      rcases List.mem_cons.mp hdf with rfl | hdf2
      · exact (hasCol_iff df c).mpr h1
      · exact (hasCol_iff df c).mpr (h2 df hdf2)
    · exact .inr h
  · rintro (h | h)
    · refine .inl ⟨(hasCol_iff d1 c).mp (h d1 (List.mem_cons_self _ _)), fun df hdf =>
        (hasCol_iff df c).mp (h df (List.mem_cons_of_mem _ hdf))⟩
    · exact .inr h

/-- C9: for every finite sequence of tables (with unique column labels)
and either flag value, `merge` returns a table with exactly the sum of
the input row counts — no deduplication — and every output column is the
concatenation, in input order, of each input's contribution (its own
column where present, missing values otherwise), so the rows of each
input appear contiguously and in order.  The empty sequence yields a
zero-row table. -/
theorem c9_theorem (l : List DataFrame) (pc : Bool) (hwf : ∀ df ∈ l, wfNames df) :
    (merge_dataframes l pc).nrows = (l.map DataFrame.nrows).sum ∧
      ∀ p ∈ (merge_dataframes l pc).cols,
        p.2 = l.flatMap (fun df =>
          bif hasCol df p.1 then getCol df p.1 else List.replicate df.nrows Val.na) :=
  ⟨(merge_shape l pc hwf).1, fun p hp => (merge_shape l pc hwf).2 p hp⟩

/-- Witness for C9 at a concrete pair of frames. -/
theorem c9_witness :
    (∀ df ∈ ([⟨1, [("text", [Val.str "a"])]⟩,
        ⟨2, [("text", [Val.str "b", Val.str "c"]), ("x", [Val.na, Val.na])]⟩] :
        List DataFrame), wfNames df) ∧
      (merge_dataframes [⟨1, [("text", [Val.str "a"])]⟩,
        ⟨2, [("text", [Val.str "b", Val.str "c"]), ("x", [Val.na, Val.na])]⟩] true).nrows =
        (([⟨1, [("text", [Val.str "a"])]⟩,
          ⟨2, [("text", [Val.str "b", Val.str "c"]), ("x", [Val.na, Val.na])]⟩] :
          List DataFrame).map DataFrame.nrows).sum :=
  ⟨by decide, (c9_theorem _ true (by decide)).1⟩

/-- C2 counterexample: the claim asserts that for every non-empty input
sequence, `merge` with `preserve_columns = false` returns a table whose
columns include `text`; but a single-element list is returned unchanged
(helpers.py lines 177-178), so a one-table input lacking `text` refutes
it. -/
theorem c2_counterexample :
    hasCol (merge_dataframes [⟨1, [("a", [Val.str "x"])]⟩] false) "text" = false := by
  decide

/-- C2 (amended): for every sequence of at least two tables,
`merge(l, preserve_columns := false)` has column `c` exactly when either
every input has `c`, or `c` is one of the forced columns `text`, `date`,
`source` and at least one input has it.  (The original claim fails for
single-element sequences, which are returned unchanged, and for forced
columns absent from every input, which cannot be materialised.) -/
theorem c2_theorem (l : List DataFrame) (c : String) (hlen : 2 ≤ l.length) :
    hasCol (merge_dataframes l false) c = true ↔
      ((∀ df ∈ l, hasCol df c = true) ∨
        (c ∈ required_columns ∧ ∃ df ∈ l, hasCol df c = true)) := by
  rcases l with _ | ⟨d1, l2⟩
  · simp at hlen
  rcases l2 with _ | ⟨d2, r⟩
  · simp at hlen
  rw [merge_eq_intersect]
  rw [hasCol_pdConcat]
  constructor
  · rintro ⟨proj, hproj, hc⟩
    rcases List.mem_map.mp hproj with ⟨df0, hdf0, rfl⟩
    rw [hasCol_selectCols, Bool.and_eq_true] at hc
    rcases hc with ⟨hc1, hc2⟩
    rcases List.mem_filter.mp (List.elem_iff.mp hc1) with ⟨hcommon, _⟩
    rcases (mem_mergeCommon d1 d2 r c).mp hcommon with hall | hreq
    · exact .inl hall
    · exact .inr ⟨hreq, df0, hdf0, hc2⟩
  · intro h
    have hex : ∃ df ∈ (d1 :: d2 :: r : List DataFrame), hasCol df c = true := by
      rcases h with hall | ⟨_, hex⟩
      · exact ⟨d1, List.mem_cons_self _ _, hall d1 (List.mem_cons_self _ _)⟩
      · exact hex
    have hcommon : c ∈ mergeCommon (d1 :: d2 :: r) := by
      refine (mem_mergeCommon d1 d2 r c).mpr ?_
      rcases h with hall | ⟨hreq, _⟩
      · exact .inl hall
      · exact .inr hreq
    rcases hex with ⟨df0, hdf0, hc0⟩
    refine ⟨selectCols df0 ((mergeCommon (d1 :: d2 :: r)).filter (fun x => hasCol df0 x)),
      List.mem_map.mpr ⟨df0, hdf0, rfl⟩, ?_⟩
    rw [hasCol_selectCols, Bool.and_eq_true]
    exact ⟨List.elem_iff.mpr (List.mem_filter.mpr ⟨hcommon, hc0⟩), hc0⟩

/-- Witness for C2 at a concrete pair of frames and the column `text`. -/
theorem c2_witness :
    2 ≤ ([⟨1, [("text", [Val.str "a"]), ("y", [Val.na])]⟩,
      ⟨1, [("y", [Val.str "b"])]⟩] : List DataFrame).length ∧
    (hasCol (merge_dataframes [⟨1, [("text", [Val.str "a"]), ("y", [Val.na])]⟩,
        ⟨1, [("y", [Val.str "b"])]⟩] false) "text" = true ↔
      ((∀ df ∈ ([⟨1, [("text", [Val.str "a"]), ("y", [Val.na])]⟩,
          ⟨1, [("y", [Val.str "b"])]⟩] : List DataFrame), hasCol df "text" = true) ∨
        ("text" ∈ required_columns ∧
          ∃ df ∈ ([⟨1, [("text", [Val.str "a"]), ("y", [Val.na])]⟩,
            ⟨1, [("y", [Val.str "b"])]⟩] : List DataFrame), hasCol df "text" = true))) :=
  ⟨by decide, c2_theorem _ "text" (by decide)⟩

/-- C1 counterexample: `standardize` consults the process clock when no
date column is found, so two calls with identical program-level
arguments but different observed clock values return different tables;
the claimed determinism (explicitly including the no-date-column case)
fails. -/
theorem c1_counterexample :
    standardize_dataframe ⟨1, [("a", [Val.str "x"])]⟩ "S" none none 0 ≠
      standardize_dataframe ⟨1, [("a", [Val.str "x"])]⟩ "S" none none 1 := by
  decide

/-- C3 counterexample: the claim says a `sentiment` column present in
the input is passed through unchanged; but `"time"` is a substring of
`"sentiment"`, so the date heuristic picks `sentiment` as the date
column, renames it to `date`, and the output has no `sentiment` column
at all. -/
theorem c3_counterexample :
    (standardize_dataframe ⟨1, [("sentiment", [Val.str "Positive"])]⟩ "S" none none 5).map
      (fun t => hasCol t "sentiment") = .ok false := by
  decide

/-- C4 counterexample: the claim says every row of the output has a
non-null `text`; but values of the resolved text column are passed
through without null-filling, so a null in `comment_text` yields a null
`text` in the output. -/
theorem c4_counterexample :
    (standardize_dataframe ⟨1, [("comment_text", [Val.na])]⟩ "S" none none 7).map
      (fun t => getCol t "text") = .ok [Val.na] := by
  decide

/-- C5 counterexample: on a table whose only column is `comment_time`,
the text heuristic resolves `comment_time` (it contains `"comment"`), so
the claim says the output's `text` column holds that column's values;
instead the date heuristic also resolves `comment_time` (it contains
`"time"`), the already-renamed column cannot be renamed to `date`, and
the uncaught access `result['date']` raises `KeyError`. -/
theorem c5_counterexample :
    standardize_dataframe ⟨1, [("comment_time", [Val.str "hello"])]⟩ "S" none none 0 =
      .error "KeyError" := by
  decide

/-- C6 counterexample: on a table whose only column is `time_text` with
an unparsable value, a date column is found (`time_text` contains
`"time"`) and its values cannot be parsed, yet the call raises
`KeyError` instead of falling back to the current timestamp, because the
text step already renamed the same column away. -/
theorem c6_counterexample :
    standardize_dataframe ⟨1, [("time_text", [Val.str "junk"])]⟩ "N" none none 3 =
      .error "KeyError" := by
  decide

/-- C8 counterexample: the claim says every non-empty input yields an
output with the same number of rows; on a table whose only column is
`text_date` the call raises `KeyError` (text and date resolution pick
the same column) and returns no table at all. -/
theorem c8_counterexample :
    standardize_dataframe ⟨1, [("text_date", [Val.str "z"])]⟩ "Q" none none 2 =
      .error "KeyError" := by
  decide

/-! ### Stage lemmas for `standardize_dataframe` -/

theorem std_unfold (df : DataFrame) (s : String) (tc dc : Option String) (now : Nat)
    (h : dfEmpty df = false) :
    standardize_dataframe df s tc dc now =
      match standardize_dateStep df
          (standardize_textStep df (setColScalar df "source" (Val.str s))
            (resolveTextColumn df tc))
          (resolveDateColumn df dc) now with
      | .error e => .error e
      | .ok r4 => standardize_project (standardize_finalDate r4 now) := by
  unfold standardize_dataframe
  rw [h]
  rfl

theorem std_empty (df : DataFrame) (s : String) (tc dc : Option String) (now : Nat)
    (h : dfEmpty df = true) :
    standardize_dataframe df s tc dc now =
      .ok ⟨0, [("text", []), ("date", []), ("source", [])]⟩ := by
  unfold standardize_dataframe
  rw [h]
  rfl

theorem textStep_rename (df r : DataFrame) (t : String) (ht : t ≠ "")
    (hc : hasCol df t = true) :
    standardize_textStep df r (some t) = renameCol r t "text" := by
  unfold standardize_textStep
  have htr : truthyArg (some t) = true := by
    unfold truthyArg
    simp [ht]
  simp only [Option.getD_some, htr, hc, Bool.and_self, Bool.cond_true]

theorem textStep_skip (df r : DataFrame) (tcol : Option String)
    (h : truthyArg tcol = false ∨ hasCol df (tcol.getD "") = false) :
    standardize_textStep df r tcol =
      bif !hasCol r "text" then setColScalar r "text" (Val.str "") else r := by
  unfold standardize_textStep
  rcases h with h | h <;> simp only [h, Bool.false_and, Bool.and_false, Bool.cond_false]

theorem dateStep_skip (df r : DataFrame) (dcol : Option String) (now : Nat)
    (h : truthyArg dcol = false ∨ hasCol df (dcol.getD "") = false) :
    standardize_dateStep df r dcol now =
      (bif !hasCol r "date" then .ok (setColScalar r "date" (Val.dt now))
       else .ok r) := by
  unfold standardize_dateStep
  rcases h with h | h <;> simp only [h, Bool.false_and, Bool.and_false, Bool.cond_false]

theorem dateStep_found (df r : DataFrame) (c : String) (now : Nat) (hcne : c ≠ "")
    (hc : hasCol df c = true) :
    standardize_dateStep df r (some c) now =
      (bif !hasCol (renameCol r c "date") "date" then .error "KeyError"
       else bif !isDatetimeSel (renameCol r c "date") "date" then
         match toDatetimeSel (renameCol r c "date") "date" with
         | some parsed => .ok (setColValues (renameCol r c "date") "date" parsed)
         | none => .ok (renameCol r c "date")
       else .ok (renameCol r c "date")) := by
  unfold standardize_dateStep
  have htr : truthyArg (some c) = true := by
    unfold truthyArg
    simp [hcne]
  simp only [Option.getD_some, htr, hc, Bool.and_self, Bool.cond_true]

theorem finalDate_found_parsed (r : DataFrame) (now : Nat) (parsed : List Val)
    (h : hasCol r "date" = true) (hp : toDatetimeSel r "date" = some parsed) :
    standardize_finalDate r now = setColValues r "date" parsed := by
  unfold standardize_finalDate
  rw [h, Bool.cond_true, hp]

theorem finalDate_found_fail (r : DataFrame) (now : Nat)
    (h : hasCol r "date" = true) (hp : toDatetimeSel r "date" = none) :
    standardize_finalDate r now = setColScalar r "date" (Val.dt now) := by
  unfold standardize_finalDate
  rw [h, Bool.cond_true, hp]

theorem project_ok (r : DataFrame) (h1 : hasCol r "text" = true)
    (h2 : hasCol r "date" = true) (h3 : hasCol r "source" = true) :
    standardize_project r =
      .ok (selectCols r (required_columns ++ optional_columns.filter (fun c => hasCol r c))) := by
  unfold standardize_project
  have hall : ((required_columns ++ optional_columns.filter (fun c => hasCol r c)).all
      (fun c => hasCol r c)) = true := by
    rw [List.all_eq_true]
    intro c hc
    rcases List.mem_append.mp hc with hc | hc
    · unfold required_columns at hc
      rcases List.mem_cons.mp hc with rfl | hc
      · exact h1
      rcases List.mem_cons.mp hc with rfl | hc
      · exact h2
      rcases List.mem_cons.mp hc with rfl | hc
      · exact h3
      · cases hc
    · exact (List.mem_filter.mp hc).2
  simp only [hall, Bool.cond_true]

theorem project_inv (r : DataFrame) (T : DataFrame)
    (h : standardize_project r = .ok T) :
    hasCol r "text" = true ∧ hasCol r "date" = true ∧ hasCol r "source" = true ∧
      T = selectCols r (required_columns ++ optional_columns.filter (fun c => hasCol r c)) := by
  unfold standardize_project at h
  cases hall : ((required_columns ++ optional_columns.filter (fun c => hasCol r c)).all
      (fun c => hasCol r c)) <;> simp only [hall, Bool.cond_false, Bool.cond_true] at h
  · cases h
  · 
    rw [List.all_eq_true] at hall
    have hmem : ∀ c ∈ required_columns, hasCol r c = true := fun c hc =>
      hall c (List.mem_append.mpr (.inl hc))
    refine ⟨hmem "text" (by unfold required_columns; simp),
      hmem "date" (by unfold required_columns; simp),
      hmem "source" (by unfold required_columns; simp), ?_⟩
    cases h
    rfl

theorem getCol_setColScalar_self (df : DataFrame) (n : String) (v : Val) :
    getCol (setColScalar df n v) n = List.replicate df.nrows v := by
  rw [getCol_setColScalar]
  simp

theorem getCol_setColScalar_other (df : DataFrame) (n m : String) (v : Val) (h : n ≠ m) :
    getCol (setColScalar df n v) m = getCol df m := by
  rw [getCol_setColScalar]
  simp [beq_eq_false_iff_ne.mpr h]

theorem hasCol_setColScalar_self (df : DataFrame) (n : String) (v : Val) :
    hasCol (setColScalar df n v) n = true := by
  rw [hasCol_setColScalar]
  simp

theorem hasCol_setColScalar_other (df : DataFrame) (n m : String) (v : Val) (h : m ≠ n) :
    hasCol (setColScalar df n v) m = hasCol df m := by
  rw [hasCol_setColScalar]
  simp [beq_eq_false_iff_ne.mpr h]

theorem countCol_setColScalar_other (df : DataFrame) (n m : String) (v : Val) (h : n ≠ m) :
    countCol (setColScalar df n v) m = countCol df m := by
  cases hf : hasCol df n
  · rw [countCol_setColScalar_new df n m v hf, beq_eq_false_iff_ne.mpr h, Bool.cond_false]
    omega
  · exact countCol_setColScalar_found df n m v hf


theorem countCol_setColScalar_self_one (df : DataFrame) (n : String) (v : Val)
    (hwf : wfNames df) : countCol (setColScalar df n v) n = 1 := by
  cases hf : hasCol df n
  · rw [countCol_setColScalar_new df n n v hf, (countCol_eq_zero df n).mpr hf]
    simp
  · rw [countCol_setColScalar_found df n n v hf]
    have hle := countCol_le_one_of_nodup df hwf n
    have hne : countCol df n ≠ 0 := fun hz => by
      rw [(countCol_eq_zero df n).mp hz] at hf
      cases hf
    omega

theorem getCol_setColValues_self (df : DataFrame) (n : String) (w : List Val)
    (h : hasCol df n = true) : getCol (setColValues df n w) n = w := by
  rw [getCol_setColValues]
  simp [h]

theorem getCol_setColValues_other (df : DataFrame) (n m : String) (w : List Val)
    (h : n ≠ m) : getCol (setColValues df n w) m = getCol df m := by
  rw [getCol_setColValues]
  simp [beq_eq_false_iff_ne.mpr h]

theorem textHeur_names :
    textNameHeur "date" = false ∧ textNameHeur "created_time" = false ∧
      textNameHeur "pub_date" = false ∧ textNameHeur "source" = false ∧
      textNameHeur "" = false ∧ textNameHeur "author" = false ∧
      textNameHeur "sentiment" = false ∧ textNameHeur "sentiment_score" = false ∧
      textNameHeur "emotion_words" = false := by
  decide

theorem dateHeur_names :
    dateNameHeur "comment_text" = false ∧ dateNameHeur "self_text" = false ∧
      dateNameHeur "lead_paragraph" = false ∧ dateNameHeur "text" = false ∧
      dateNameHeur "source" = false ∧ dateNameHeur "" = false := by
  decide

theorem resolveText_explicit (df : DataFrame) (x : String) (hx : x ≠ "") :
    resolveTextColumn df (some x) = some x := by
  unfold resolveTextColumn
  have htr : truthyArg (some x) = true := by
    unfold truthyArg
    simp [hx]
  rw [htr, Bool.cond_true]

theorem resolveDate_explicit (df : DataFrame) (x : String) (hx : x ≠ "") :
    resolveDateColumn df (some x) = some x := by
  unfold resolveDateColumn
  have htr : truthyArg (some x) = true := by
    unfold truthyArg
    simp [hx]
  rw [htr, Bool.cond_true]

theorem resolveText_none_shape (df : DataFrame) (t : String)
    (h : resolveTextColumn df none = some t) :
    hasCol df t = true ∧ t ≠ "" ∧
      (t = "comment_text" ∨ t = "self_text" ∨ t = "lead_paragraph" ∨ t = "text" ∨
        textNameHeur t = true) := by
  unfold resolveTextColumn at h
  have htr : truthyArg (none : Option String) = false := rfl
  rw [htr, Bool.cond_false] at h
  cases h1 : hasCol df "comment_text" <;> rw [h1] at h
  case true =>
    rw [Bool.cond_true] at h
    cases h
    exact ⟨h1, by decide, .inl rfl⟩
  rw [Bool.cond_false] at h
  cases h2 : hasCol df "self_text" <;> rw [h2] at h
  case true =>
    rw [Bool.cond_true] at h
    cases h
    exact ⟨h2, by decide, .inr (.inl rfl)⟩
  rw [Bool.cond_false] at h
  cases h3 : hasCol df "lead_paragraph" <;> rw [h3] at h
  case true =>
    rw [Bool.cond_true] at h
    cases h
    exact ⟨h3, by decide, .inr (.inr (.inl rfl))⟩
  rw [Bool.cond_false] at h
  cases h4 : hasCol df "text" <;> rw [h4] at h
  case true =>
    rw [Bool.cond_true] at h
    cases h
    exact ⟨h4, by decide, .inr (.inr (.inr (.inl rfl)))⟩
  rw [Bool.cond_false] at h
  have hm := List.mem_of_find?_eq_some h
  have hp := List.find?_some h
  refine ⟨(hasCol_iff df t).mpr hm, fun he => ?_, .inr (.inr (.inr (.inr hp)))⟩
  rw [he] at hp
  exact absurd hp (by decide)

theorem resolveDate_none_shape (df : DataFrame) (c : String)
    (h : resolveDateColumn df none = some c) :
    hasCol df c = true ∧ c ≠ "" ∧
      (c = "date" ∨ c = "created_time" ∨ c = "pub_date" ∨ dateNameHeur c = true) := by
  unfold resolveDateColumn at h
  have htr : truthyArg (none : Option String) = false := rfl
  rw [htr, Bool.cond_false] at h
  cases h1 : hasCol df "date" <;> rw [h1] at h
  case true =>
    rw [Bool.cond_true] at h
    cases h
    exact ⟨h1, by decide, .inl rfl⟩
  rw [Bool.cond_false] at h
  cases h2 : hasCol df "created_time" <;> rw [h2] at h
  case true =>
    rw [Bool.cond_true] at h
    cases h
    exact ⟨h2, by decide, .inr (.inl rfl)⟩
  rw [Bool.cond_false] at h
  cases h3 : hasCol df "pub_date" <;> rw [h3] at h
  case true =>
    rw [Bool.cond_true] at h
    cases h
    exact ⟨h3, by decide, .inr (.inr (.inl rfl))⟩
  rw [Bool.cond_false] at h
  have hm := List.mem_of_find?_eq_some h
  have hp := List.find?_some h
  refine ⟨(hasCol_iff df c).mpr hm, fun he => ?_, .inr (.inr (.inr hp))⟩
  rw [he] at hp
  exact absurd hp (by decide)

theorem resolveText_none_ne (df : DataFrame) (t : String)
    (h : resolveTextColumn df none = some t) :
    t ≠ "date" ∧ t ≠ "source" ∧ t ∉ optional_columns := by
  rcases resolveText_none_shape df t h with ⟨_, _, hshape⟩
  rcases hshape with rfl | rfl | rfl | rfl | hheur
  · exact ⟨by decide, by decide, by decide⟩
  · exact ⟨by decide, by decide, by decide⟩
  · exact ⟨by decide, by decide, by decide⟩
  · exact ⟨by decide, by decide, by decide⟩
  · refine ⟨fun he => ?_, fun he => ?_, fun he => ?_⟩
    · rw [he] at hheur
      exact absurd hheur (by decide)
    · rw [he] at hheur
      exact absurd hheur (by decide)
    · unfold optional_columns at he
      rcases List.mem_cons.mp he with rfl | he
      · exact absurd hheur (by decide)
      rcases List.mem_cons.mp he with rfl | he
      · exact absurd hheur (by decide)
      rcases List.mem_cons.mp he with rfl | he
      · exact absurd hheur (by decide)
      rcases List.mem_cons.mp he with rfl | he
      · exact absurd hheur (by decide)
      · cases he

theorem resolveDate_none_ne (df : DataFrame) (c : String)
    (h : resolveDateColumn df none = some c) :
    c ≠ "text" ∧ c ≠ "source" ∧ c ≠ "comment_text" ∧ c ≠ "self_text" ∧
      c ≠ "lead_paragraph" := by
  rcases resolveDate_none_shape df c h with ⟨_, _, hshape⟩
  rcases hshape with rfl | rfl | rfl | hheur
  · exact ⟨by decide, by decide, by decide, by decide, by decide⟩
  · exact ⟨by decide, by decide, by decide, by decide, by decide⟩
  · exact ⟨by decide, by decide, by decide, by decide, by decide⟩
  · refine ⟨fun he => ?_, fun he => ?_, fun he => ?_, fun he => ?_, fun he => ?_⟩ <;>
      rw [he] at hheur <;> exact absurd hheur (by decide)

theorem resolveDate_none_date_cases (df : DataFrame) (c : String)
    (h : resolveDateColumn df none = some c) :
    (c = "date" ∧ hasCol df "date" = true) ∨ (c ≠ "date" ∧ hasCol df "date" = false) := by
  unfold resolveDateColumn at h
  have htr : truthyArg (none : Option String) = false := rfl
  rw [htr, Bool.cond_false] at h
  cases h1 : hasCol df "date" <;> rw [h1] at h
  · rw [Bool.cond_false] at h
    refine .inr ⟨fun he => ?_, rfl⟩
    subst he
    cases h2 : hasCol df "created_time" <;> rw [h2] at h
    · rw [Bool.cond_false] at h
      cases h3 : hasCol df "pub_date" <;> rw [h3] at h
      · rw [Bool.cond_false] at h
        have hm := List.mem_of_find?_eq_some h
        rw [← hasCol_iff] at hm
        rw [hm] at h1
        cases h1
      · rw [Bool.cond_true] at h
        exact absurd h (by decide)
    · rw [Bool.cond_true] at h
      exact absurd h (by decide)
  · rw [Bool.cond_true] at h
    cases h
    exact .inl ⟨rfl, rfl⟩

theorem countCol_one_of_wf_has (df : DataFrame) (hwf : wfNames df) (n : String)
    (h : hasCol df n = true) : countCol df n = 1 := by
  have hle := countCol_le_one_of_nodup df hwf n
  have hne : countCol df n ≠ 0 := fun hz => by
    rw [(countCol_eq_zero df n).mp hz] at h
    cases h
  omega

theorem isDatetimeDtype_parses (l : List Val) (h : isDatetimeDtypeCol l = true) :
    toDatetimeCol l = some l := by
  unfold isDatetimeDtypeCol at h
  exact toDatetimeCol_of_dtLike (List.all_eq_true.mp h)

theorem resolveDate_none_none_no_date (df : DataFrame)
    (h : resolveDateColumn df none = none) : hasCol df "date" = false := by
  unfold resolveDateColumn at h
  have htr : truthyArg (none : Option String) = false := rfl
  rw [htr, Bool.cond_false] at h
  cases h1 : hasCol df "date" <;> rw [h1] at h
  case true =>
    rw [Bool.cond_true] at h
    cases h

theorem toDatetimeSel_eq (df : DataFrame) (n : String) (hcnt : countCol df n = 1) :
    toDatetimeSel df n = toDatetimeCol (getCol df n) := by
  unfold toDatetimeSel
  rw [hcnt]
  rfl

/-- Values produced by the final date normalisation: given a unique
`date` column holding `w`, helpers.py lines 81-86 leave a unique `date`
column holding the parse of `w` or, on parse failure, the current
timestamp, and touch no other column. -/
theorem finStage (r4 : DataFrame) (now : Nat) (w : List Val)
    (hh : hasCol r4 "date" = true) (hcnt : countCol r4 "date" = 1)
    (hget : getCol r4 "date" = w) :
    ∃ r5, standardize_finalDate r4 now = r5 ∧
      r5.nrows = r4.nrows ∧
      hasCol r5 "date" = true ∧ countCol r5 "date" = 1 ∧
      getCol r5 "date" = (match toDatetimeCol w with
        | some p => p
        | none => List.replicate r4.nrows (Val.dt now)) ∧
      (∀ x, x ≠ "date" → hasCol r5 x = hasCol r4 x ∧ getCol r5 x = getCol r4 x ∧
        countCol r5 x = countCol r4 x) := by
  have hsel : toDatetimeSel r4 "date" = toDatetimeCol w := by
    rw [toDatetimeSel_eq r4 "date" hcnt, hget]
  cases hparse : toDatetimeCol w with
  | some p =>
    refine ⟨setColValues r4 "date" p,
      finalDate_found_parsed r4 now p hh (by rw [hsel, hparse]), ?_, ?_, ?_, ?_, ?_⟩
    · simp
    · rw [hasCol_setColValues, hh]
    · rw [countCol_setColValues, hcnt]
    · rw [getCol_setColValues_self r4 "date" p hh]
    · intro x hx
      exact ⟨hasCol_setColValues r4 "date" x p,
        getCol_setColValues_other r4 "date" x p (fun he => hx he.symm),
        countCol_setColValues r4 "date" x p⟩
  | none =>
    refine ⟨setColScalar r4 "date" (Val.dt now),
      finalDate_found_fail r4 now hh (by rw [hsel, hparse]), ?_, ?_, ?_, ?_, ?_⟩
    · simp
    · exact hasCol_setColScalar_self r4 "date" (Val.dt now)
    · rw [countCol_setColScalar_found r4 "date" "date" (Val.dt now) hh, hcnt]
    · rw [getCol_setColScalar_self]
    · intro x hx
      exact ⟨hasCol_setColScalar_other r4 "date" x (Val.dt now) hx,
        getCol_setColScalar_other r4 "date" x (Val.dt now) (fun he => hx he.symm),
        countCol_setColScalar_other r4 "date" x (Val.dt now) (fun he => hx he.symm)⟩

/-- Combined behaviour of the in-branch conversion (helpers.py lines
71-76) followed by the final normalisation (lines 81-86): starting from
a frame with a unique `date` column holding `w`, the run continues with
a frame whose `date` column is the parse of `w`, or the current
timestamp on parse failure, all other columns untouched. -/
theorem convStage (r3 : DataFrame) (now : Nat) (w : List Val)
    (hh : hasCol r3 "date" = true) (hcnt : countCol r3 "date" = 1)
    (hget : getCol r3 "date" = w) :
    ∃ r5,
      (match (bif !isDatetimeSel r3 "date" then
          match toDatetimeSel r3 "date" with
          | some parsed => Except.ok (setColValues r3 "date" parsed)
          | none => Except.ok r3
        else Except.ok r3 : Except String DataFrame) with
        | .error e => .error e
        | .ok r4 => standardize_project (standardize_finalDate r4 now)) =
        standardize_project r5 ∧
      r5.nrows = r3.nrows ∧
      hasCol r5 "date" = true ∧ countCol r5 "date" = 1 ∧
      getCol r5 "date" = (match toDatetimeCol w with
        | some p => p
        | none => List.replicate r3.nrows (Val.dt now)) ∧
      (∀ x, x ≠ "date" → hasCol r5 x = hasCol r3 x ∧ getCol r5 x = getCol r3 x ∧
        countCol r5 x = countCol r3 x) := by
  have hsel : toDatetimeSel r3 "date" = toDatetimeCol w := by
    rw [toDatetimeSel_eq r3 "date" hcnt, hget]
  cases hdt : isDatetimeSel r3 "date"
  · simp only [hdt, Bool.not_false, Bool.cond_true]
    cases hparse : toDatetimeCol w with
    | some p =>
      rw [hsel, hparse]
      have hh4 : hasCol (setColValues r3 "date" p) "date" = true := by
        rw [hasCol_setColValues, hh]
      have hcnt4 : countCol (setColValues r3 "date" p) "date" = 1 := by
        rw [countCol_setColValues, hcnt]
      have hget4 : getCol (setColValues r3 "date" p) "date" = p :=
        getCol_setColValues_self r3 "date" p hh
      rcases finStage (setColValues r3 "date" p) now p hh4 hcnt4 hget4 with
        ⟨r5, hfin, hn5, hh5, hc5, hg5, htr5⟩
      refine ⟨r5, ?_, by rw [hn5]; simp, hh5, hc5, ?_, ?_⟩
      · show standardize_project
          (standardize_finalDate (setColValues r3 "date" p) now) = standardize_project r5
        rw [hfin]
      · simp only [hg5, toDatetimeCol_idem hparse, hparse]
      · intro x hx
        rcases htr5 x hx with ⟨a1, a2, a3⟩
        exact ⟨by rw [a1, hasCol_setColValues],
          by rw [a2, getCol_setColValues_other r3 "date" x p (fun he => hx he.symm)],
          by rw [a3, countCol_setColValues]⟩
    | none =>
      rw [hsel, hparse]
      rcases finStage r3 now w hh hcnt hget with ⟨r5, hfin, hn5, hh5, hc5, hg5, htr5⟩
      refine ⟨r5, ?_, hn5, hh5, hc5, by rw [hg5, hparse], htr5⟩
      · show standardize_project (standardize_finalDate r3 now) = standardize_project r5
        rw [hfin]
  · simp only [hdt, Bool.not_true, Bool.cond_false]
    rcases finStage r3 now w hh hcnt hget with ⟨r5, hfin, hn5, hh5, hc5, hg5, htr5⟩
    refine ⟨r5, ?_, hn5, hh5, hc5, hg5, htr5⟩
    · show standardize_project (standardize_finalDate r3 now) = standardize_project r5
      rw [hfin]

/-- Central trace of a `standardize_dataframe` run with `date_col =
None`, parametrised by the frame `r2` reached after the text step.
Requires the date-resolved column (when there is one and it is not
`date` itself) to have survived the text step — i.e. no clash between
text and date resolution. -/
theorem std_run (df r2 : DataFrame) (s : String) (tc : Option String) (now : Nat)
    (hwf : wfNames df) (hne : dfEmpty df = false)
    (hr2 : standardize_textStep df (setColScalar df "source" (Val.str s))
        (resolveTextColumn df tc) = r2)
    (htext : hasCol r2 "text" = true)
    (hsrc : hasCol r2 "source" = true)
    (hnr : r2.nrows = df.nrows)
    (hdate_has : hasCol r2 "date" = hasCol df "date")
    (hdate_cnt : countCol r2 "date" = countCol df "date")
    (hdate_get : getCol r2 "date" = getCol df "date")
    (hres : ∀ c, resolveDateColumn df none = some c → c ≠ "date" →
      hasCol r2 c = true ∧ countCol r2 c = 1 ∧ getCol r2 c = getCol df c) :
    ∃ r5, standardize_dataframe df s tc none now =
        .ok (selectCols r5
          (required_columns ++ optional_columns.filter (fun c => hasCol r5 c))) ∧
      r5.nrows = df.nrows ∧
      hasCol r5 "text" = true ∧ hasCol r5 "source" = true ∧
      hasCol r5 "date" = true ∧ countCol r5 "date" = 1 ∧
      getCol r5 "date" = (match resolveDateColumn df none with
        | some c => (match toDatetimeCol (getCol df c) with
            | some p => p
            | none => List.replicate df.nrows (Val.dt now))
        | none => List.replicate df.nrows (Val.dt now)) ∧
      (∀ x, x ≠ "date" → resolveDateColumn df none ≠ some x →
        hasCol r5 x = hasCol r2 x ∧ getCol r5 x = getCol r2 x ∧
          countCol r5 x = countCol r2 x) ∧
      (∀ c, resolveDateColumn df none = some c → c ≠ "date" → hasCol r5 c = false) := by
  rw [std_unfold df s tc none now hne, hr2]
  cases hdres : resolveDateColumn df none with
  | none =>
    have hdnone : hasCol df "date" = false := resolveDate_none_none_no_date df hdres
    rw [dateStep_skip df r2 none now (.inl rfl)]
    have h2 : hasCol r2 "date" = false := by rw [hdate_has, hdnone]
    simp only [h2, Bool.not_false, Bool.cond_true]
    have hh4 : hasCol (setColScalar r2 "date" (Val.dt now)) "date" = true :=
      hasCol_setColScalar_self _ _ _
    have hcnt4 : countCol (setColScalar r2 "date" (Val.dt now)) "date" = 1 := by
      rw [countCol_setColScalar_new r2 "date" "date" (Val.dt now) h2,
        (countCol_eq_zero r2 "date").mpr h2]
      simp
    have hget4 : getCol (setColScalar r2 "date" (Val.dt now)) "date" =
        List.replicate r2.nrows (Val.dt now) := getCol_setColScalar_self _ _ _
    rcases finStage (setColScalar r2 "date" (Val.dt now)) now
      (List.replicate r2.nrows (Val.dt now)) hh4 hcnt4 hget4 with
      ⟨r5, hfin, hn5, hh5, hc5, hg5, htr5⟩
    have htr : ∀ x, x ≠ "date" →
        hasCol r5 x = hasCol r2 x ∧ getCol r5 x = getCol r2 x ∧
          countCol r5 x = countCol r2 x := by
      intro x hx
      rcases htr5 x hx with ⟨a1, a2, a3⟩
      exact ⟨by rw [a1, hasCol_setColScalar_other r2 "date" x (Val.dt now) hx],
        by rw [a2, getCol_setColScalar_other r2 "date" x (Val.dt now) (fun he => hx he.symm)],
        by rw [a3, countCol_setColScalar_other r2 "date" x (Val.dt now) (fun he => hx he.symm)]⟩
    have ht5 : hasCol r5 "text" = true := by rw [(htr "text" (by decide)).1, htext]
    have hs5 : hasCol r5 "source" = true := by rw [(htr "source" (by decide)).1, hsrc]
    refine ⟨r5, ?_, ?_, ht5, hs5, hh5, hc5, ?_, fun x hx _ => htr x hx, ?_⟩
    · show standardize_project
        (standardize_finalDate (setColScalar r2 "date" (Val.dt now)) now) = _
      rw [hfin]
      exact project_ok r5 ht5 hh5 hs5
    · rw [hn5, nrows_setColScalar, hnr]
    · rw [hg5, toDatetimeCol_replicate]
      rw [nrows_setColScalar, hnr]
    · intro c hc
      cases hc
  | some c =>
    rcases resolveDate_none_shape df c hdres with ⟨hchas, hcne, _⟩
    rcases resolveDate_none_ne df c hdres with ⟨hcnt2, hcns, _, _, _⟩
    rw [dateStep_found df r2 c now hcne hchas]
    rcases resolveDate_none_date_cases df c hdres with ⟨rfl, hdd⟩ | ⟨hcd, hdd⟩
    · -- the resolved column is `date` itself: the rename is the identity
      rw [renameCol_self]
      have h2 : hasCol r2 "date" = true := by rw [hdate_has, hdd]
      simp only [h2, Bool.not_true, Bool.cond_false]
      have hcnt1 : countCol r2 "date" = 1 := by
        rw [hdate_cnt]
        exact countCol_one_of_wf_has df hwf "date" hdd
      rcases convStage r2 now (getCol df "date") h2 hcnt1 hdate_get with
        ⟨r5, hconv, hn5, hh5, hc5, hg5, htr5⟩
      have ht5 : hasCol r5 "text" = true := by
        rw [(htr5 "text" (by decide)).1, htext]
      have hs5 : hasCol r5 "source" = true := by
        rw [(htr5 "source" (by decide)).1, hsrc]
      refine ⟨r5, ?_, by rw [hn5, hnr], ht5, hs5, hh5, hc5, ?_, ?_, ?_⟩
      · rw [hconv]
        exact project_ok r5 ht5 hh5 hs5
      · cases hp2 : toDatetimeCol (getCol df "date") <;>
          simp only [hg5, hp2, hn5, hnr]
      · intro x hx hcx
        exact htr5 x hx
      · intro c' hc' hcd'
        cases hc'
        exact absurd rfl hcd'
    · -- the resolved column is renamed onto `date`
      rcases hres c hdres hcd with ⟨hr2c, hr2cnt, hr2get⟩
      have h2 : hasCol r2 "date" = false := by rw [hdate_has, hdd]
      have hr3has : hasCol (renameCol r2 c "date") "date" = true := by
        rw [hasCol_renameCol_target, hr2c]
        rfl
      simp only [hr3has, Bool.not_true, Bool.cond_false]
      have hr3cnt : countCol (renameCol r2 c "date") "date" = 1 := by
        rw [countCol_renameCol_target r2 c "date" hcd, hr2cnt,
          hdate_cnt, (countCol_eq_zero df "date").mpr hdd]
      have hr3get : getCol (renameCol r2 c "date") "date" = getCol df c := by
        rw [getCol_renameCol_target r2 c "date" h2, hr2get]
      rcases convStage (renameCol r2 c "date") now (getCol df c) hr3has hr3cnt hr3get with
        ⟨r5, hconv, hn5, hh5, hc5, hg5, htr5⟩
      have htr : ∀ x, x ≠ "date" → x ≠ c →
          hasCol r5 x = hasCol r2 x ∧ getCol r5 x = getCol r2 x ∧
            countCol r5 x = countCol r2 x := by
        intro x hx hxc
        rcases htr5 x hx with ⟨a1, a2, a3⟩
        exact ⟨by rw [a1, hasCol_renameCol_other r2 c "date" x hxc hx],
          by rw [a2, getCol_renameCol_other r2 c "date" x hxc hx],
          by rw [a3, countCol_renameCol_other r2 c "date" x hxc hx]⟩
      have ht5 : hasCol r5 "text" = true := by
        rw [(htr "text" (by decide) (fun he => hcnt2 he.symm)).1, htext]
      have hs5 : hasCol r5 "source" = true := by
        rw [(htr "source" (by decide) (fun he => hcns he.symm)).1, hsrc]
      refine ⟨r5, ?_, by rw [hn5, nrows_renameCol, hnr], ht5, hs5, hh5, hc5, ?_, ?_, ?_⟩
      · rw [hconv]
        exact project_ok r5 ht5 hh5 hs5
      · cases hp2 : toDatetimeCol (getCol df c) <;>
          simp only [hg5, hp2, hn5, nrows_renameCol, hnr]
      · intro x hx hcx
        exact htr x hx (fun he => hcx (by rw [he]))
      · intro c' hc' hcd'
        cases hc'
        rcases htr5 c hcd' with ⟨a1, _, _⟩
        rw [a1]
        exact hasCol_renameCol_src r2 c "date" hcd'

/-- Facts about the frame after `result['source'] = source`. -/
theorem srcFacts (df : DataFrame) (s : String) (hwf : wfNames df) :
    (setColScalar df "source" (Val.str s)).nrows = df.nrows ∧
    hasCol (setColScalar df "source" (Val.str s)) "source" = true ∧
    getCol (setColScalar df "source" (Val.str s)) "source" =
      List.replicate df.nrows (Val.str s) ∧
    countCol (setColScalar df "source" (Val.str s)) "source" = 1 ∧
    (∀ x, x ≠ "source" →
      hasCol (setColScalar df "source" (Val.str s)) x = hasCol df x ∧
      getCol (setColScalar df "source" (Val.str s)) x = getCol df x ∧
      countCol (setColScalar df "source" (Val.str s)) x = countCol df x) :=
  ⟨nrows_setColScalar df "source" (Val.str s),
   hasCol_setColScalar_self df "source" (Val.str s),
   getCol_setColScalar_self df "source" (Val.str s),
   countCol_setColScalar_self_one df "source" (Val.str s) hwf,
   fun x hx =>
     ⟨hasCol_setColScalar_other df "source" x (Val.str s) hx,
      getCol_setColScalar_other df "source" x (Val.str s) (fun he => hx he.symm),
      countCol_setColScalar_other df "source" x (Val.str s) (fun he => hx he.symm)⟩⟩

/-- Facts after the text step when the resolved column `t` is present
and renamed (helpers.py lines 61-62), with no collision against an
existing `text` column. -/
theorem textFacts_rename (df r2 : DataFrame) (s : String) (t : String)
    (hwf : wfNames df) (hthas : hasCol df t = true) (hts : t ≠ "source") (htd : t ≠ "date")
    (hcoll : t = "text" ∨ hasCol df "text" = false)
    (hr2 : r2 = renameCol (setColScalar df "source" (Val.str s)) t "text") :
    hasCol r2 "text" = true ∧ hasCol r2 "source" = true ∧ r2.nrows = df.nrows ∧
    hasCol r2 "date" = hasCol df "date" ∧ countCol r2 "date" = countCol df "date" ∧
    getCol r2 "date" = getCol df "date" ∧
    getCol r2 "text" = getCol df t ∧ countCol r2 "text" = 1 ∧
    getCol r2 "source" = List.replicate df.nrows (Val.str s) ∧
    countCol r2 "source" = 1 ∧
    (∀ x, x ≠ "text" → x ≠ "source" → x ≠ t →
      hasCol r2 x = hasCol df x ∧ getCol r2 x = getCol df x ∧
        countCol r2 x = countCol df x) ∧
    (t ≠ "text" → hasCol r2 t = false) := by
  subst hr2
  rcases srcFacts df s hwf with ⟨hn1, hs1, hg1, hc1, htr1⟩
  have hr1t : hasCol (setColScalar df "source" (Val.str s)) t = hasCol df t :=
    (htr1 t hts).1
  rcases hcoll with rfl | hcoll
  · rw [renameCol_self]
    refine ⟨by rw [hr1t, hthas], hs1, hn1, (htr1 "date" (by decide)).1,
      (htr1 "date" (by decide)).2.2, (htr1 "date" (by decide)).2.1,
      (htr1 "text" hts).2.1, ?_, hg1, hc1, ?_, fun h => absurd rfl h⟩
    · rw [(htr1 "text" hts).2.2]
      exact countCol_one_of_wf_has df hwf "text" hthas
    · intro x hx hxs _
      exact htr1 x hxs
  · have hr1text : hasCol (setColScalar df "source" (Val.str s)) "text" = false := by
      rw [(htr1 "text" (by decide)).1, hcoll]
    by_cases htt : t = "text"
    · subst htt
      rw [hr1t] at hr1text
      rw [hr1text] at hthas
      cases hthas
    · refine ⟨?_, ?_, by simp [hn1], ?_, ?_, ?_, ?_, ?_, ?_, ?_, ?_, fun _ => ?_⟩
      · rw [hasCol_renameCol_target, hr1t, hthas]
        rfl
      · rw [hasCol_renameCol_other _ t "text" "source" (Ne.symm hts) (by decide)]
        exact hs1
      · rw [hasCol_renameCol_other _ t "text" "date" (Ne.symm htd) (by decide)]
        exact (htr1 "date" (by decide)).1
      · rw [countCol_renameCol_other _ t "text" "date" (Ne.symm htd) (by decide)]
        exact (htr1 "date" (by decide)).2.2
      · rw [getCol_renameCol_other _ t "text" "date" (Ne.symm htd) (by decide)]
        exact (htr1 "date" (by decide)).2.1
      · rw [getCol_renameCol_target _ t "text" hr1text]
        exact (htr1 t hts).2.1
      · rw [countCol_renameCol_target _ t "text" htt, (htr1 t hts).2.2,
          (countCol_eq_zero _ "text").mpr hr1text,
          countCol_one_of_wf_has df hwf t hthas]
      · rw [getCol_renameCol_other _ t "text" "source" (Ne.symm hts) (by decide)]
        exact hg1
      · rw [countCol_renameCol_other _ t "text" "source" (Ne.symm hts) (by decide)]
        exact hc1
      · intro x hx hxs hxt
        refine ⟨?_, ?_, ?_⟩
        · rw [hasCol_renameCol_other _ t "text" x hxt hx]
          exact (htr1 x hxs).1
        · rw [getCol_renameCol_other _ t "text" x hxt hx]
          exact (htr1 x hxs).2.1
        · rw [countCol_renameCol_other _ t "text" x hxt hx]
          exact (htr1 x hxs).2.2
      · exact hasCol_renameCol_src _ t "text" htt

/-- Facts after the text step when no rename happens and the input
already has a `text` column (helpers.py line 63 test fails). -/
theorem textFacts_keep (df r2 : DataFrame) (s : String)
    (hwf : wfNames df) (hthas : hasCol df "text" = true)
    (hr2 : r2 = setColScalar df "source" (Val.str s)) :
    hasCol r2 "text" = true ∧ hasCol r2 "source" = true ∧ r2.nrows = df.nrows ∧
    hasCol r2 "date" = hasCol df "date" ∧ countCol r2 "date" = countCol df "date" ∧
    getCol r2 "date" = getCol df "date" ∧
    getCol r2 "text" = getCol df "text" ∧ countCol r2 "text" = 1 ∧
    getCol r2 "source" = List.replicate df.nrows (Val.str s) ∧
    countCol r2 "source" = 1 ∧
    (∀ x, x ≠ "source" →
      hasCol r2 x = hasCol df x ∧ getCol r2 x = getCol df x ∧
        countCol r2 x = countCol df x) := by
  subst hr2
  rcases srcFacts df s hwf with ⟨hn1, hs1, hg1, hc1, htr1⟩
  refine ⟨by rw [(htr1 "text" (by decide)).1, hthas], hs1, hn1,
    (htr1 "date" (by decide)).1, (htr1 "date" (by decide)).2.2,
    (htr1 "date" (by decide)).2.1, (htr1 "text" (by decide)).2.1, ?_, hg1, hc1, htr1⟩
  rw [(htr1 "text" (by decide)).2.2]
  exact countCol_one_of_wf_has df hwf "text" hthas

/-- Facts after the text step when no rename happens and no `text`
column exists: it is filled with empty strings (helpers.py line 65). -/
theorem textFacts_fill (df r2 : DataFrame) (s : String)
    (hwf : wfNames df) (hthas : hasCol df "text" = false)
    (hr2 : r2 = setColScalar (setColScalar df "source" (Val.str s)) "text" (Val.str "")) :
    hasCol r2 "text" = true ∧ hasCol r2 "source" = true ∧ r2.nrows = df.nrows ∧
    hasCol r2 "date" = hasCol df "date" ∧ countCol r2 "date" = countCol df "date" ∧
    getCol r2 "date" = getCol df "date" ∧
    getCol r2 "text" = List.replicate df.nrows (Val.str "") ∧ countCol r2 "text" = 1 ∧
    getCol r2 "source" = List.replicate df.nrows (Val.str s) ∧
    countCol r2 "source" = 1 ∧
    (∀ x, x ≠ "source" → x ≠ "text" →
      hasCol r2 x = hasCol df x ∧ getCol r2 x = getCol df x ∧
        countCol r2 x = countCol df x) := by
  subst hr2
  rcases srcFacts df s hwf with ⟨hn1, hs1, hg1, hc1, htr1⟩
  have hr1text : hasCol (setColScalar df "source" (Val.str s)) "text" = false := by
    rw [(htr1 "text" (by decide)).1, hthas]
  refine ⟨hasCol_setColScalar_self _ "text" (Val.str ""), ?_, by simp [hn1], ?_, ?_, ?_,
    ?_, ?_, ?_, ?_, ?_⟩
  · rw [hasCol_setColScalar_other _ "text" "source" (Val.str "") (by decide)]
    exact hs1
  · rw [hasCol_setColScalar_other _ "text" "date" (Val.str "") (by decide)]
    exact (htr1 "date" (by decide)).1
  · rw [countCol_setColScalar_other _ "text" "date" (Val.str "") (by decide)]
    exact (htr1 "date" (by decide)).2.2
  · rw [getCol_setColScalar_other _ "text" "date" (Val.str "") (by decide)]
    exact (htr1 "date" (by decide)).2.1
  · rw [getCol_setColScalar_self, hn1]
  · rw [countCol_setColScalar_new _ "text" "text" (Val.str "") hr1text,
      (countCol_eq_zero _ "text").mpr hr1text]
    simp
  · rw [getCol_setColScalar_other _ "text" "source" (Val.str "") (by decide)]
    exact hg1
  · rw [countCol_setColScalar_other _ "text" "source" (Val.str "") (by decide)]
    exact hc1
  · intro x hxs hxt
    refine ⟨?_, ?_, ?_⟩
    · rw [hasCol_setColScalar_other _ "text" x (Val.str "") hxt]
      exact (htr1 x hxs).1
    · rw [getCol_setColScalar_other _ "text" x (Val.str "") (fun he => hxt he.symm)]
      exact (htr1 x hxs).2.1
    · rw [countCol_setColScalar_other _ "text" x (Val.str "") (fun he => hxt he.symm)]
      exact (htr1 x hxs).2.2

theorem textStep_eq_rename (df r : DataFrame) (tc : Option String) (t : String)
    (hres : resolveTextColumn df tc = some t) (htne : t ≠ "") (hthas : hasCol df t = true) :
    standardize_textStep df r (resolveTextColumn df tc) = renameCol r t "text" := by
  rw [hres]
  exact textStep_rename df r t htne hthas

theorem textStep_eq_keep (df r : DataFrame) (tcol : Option String)
    (hcond : truthyArg tcol = false ∨ hasCol df (tcol.getD "") = false)
    (hhas : hasCol r "text" = true) :
    standardize_textStep df r tcol = r := by
  rw [textStep_skip df r tcol hcond]
  simp only [hhas, Bool.not_true, Bool.cond_false]

theorem textStep_eq_fill (df r : DataFrame) (tcol : Option String)
    (hcond : truthyArg tcol = false ∨ hasCol df (tcol.getD "") = false)
    (hhas : hasCol r "text" = false) :
    standardize_textStep df r tcol = setColScalar r "text" (Val.str "") := by
  rw [textStep_skip df r tcol hcond]
  simp only [hhas, Bool.not_false, Bool.cond_true]

theorem cols_eq_map_of_nodup (cols : List (String × List Val))
    (h : (cols.map Prod.fst).Nodup) :
    cols = (cols.map Prod.fst).map (fun n => (n, getColAux cols n)) := by
  induction cols with
  | nil => rfl
  | cons p rest ih =>
    rcases p with ⟨k, u⟩
    simp only [List.map_cons, List.nodup_cons] at h ⊢
    have hhead : getColAux ((k, u) :: rest) k = u := by simp [getColAux]
    rw [hhead]
    congr 1
    have hrest := ih h.2
    conv_lhs => rw [hrest]
    refine List.map_congr_left ?_
    intro n hn
    have hkn : (k == n) = false := beq_eq_false_iff_ne.mpr (fun he => h.1 (he ▸ hn))
    simp [getColAux, hkn]

theorem cols_eq_of_nodup (df : DataFrame) (hwf : wfNames df) :
    df.cols = (colNames df).map (fun n => (n, getCol df n)) :=
  cols_eq_map_of_nodup df.cols hwf

theorem df_ext (d1 d2 : DataFrame) (hw1 : wfNames d1)
    (hn : d1.nrows = d2.nrows) (hcols : colNames d1 = colNames d2)
    (hget : ∀ x, getCol d1 x = getCol d2 x) : d1 = d2 := by
  have hw2 : wfNames d2 := by
    unfold wfNames at *
    have h2 : colNames d2 = d2.cols.map Prod.fst := rfl
    rw [← h2, ← hcols]
    exact hw1
  have h1 := cols_eq_of_nodup d1 hw1
  have h2 := cols_eq_of_nodup d2 hw2
  have hcols2 : d1.cols = d2.cols := by
    rw [h1, h2, hcols]
    exact List.map_congr_left (fun n _ => by rw [hget n])
  rcases d1 with ⟨n1, c1⟩
  rcases d2 with ⟨n2, c2⟩
  simp only at hn hcols2
  rw [hn, hcols2]

theorem nodup_of_counts_list (cols : List (String × List Val))
    (h : ∀ x, (cols.filter (fun p => p.1 == x)).length ≤ 1) :
    (cols.map Prod.fst).Nodup := by
  induction cols with
  | nil => exact List.nodup_nil
  | cons p rest ih =>
    rcases p with ⟨k, u⟩
    simp only [List.map_cons, List.nodup_cons]
    have hk := h k
    simp only [List.filter_cons, beq_self_eq_true, if_true, List.length_cons] at hk
    have hz : (rest.filter (fun q => q.1 == k)).length = 0 := by omega
    constructor
    · intro hmem
      rcases List.mem_map.mp hmem with ⟨q, hq, he⟩
      have hqf : q ∈ rest.filter (fun q => q.1 == k) :=
        List.mem_filter.mpr ⟨hq, by simp [he]⟩
      rw [List.length_eq_zero.mp hz] at hqf
      cases hqf
    · refine ih fun x => ?_
      have hx := h x
      simp only [List.filter_cons] at hx
      rcases Decidable.em ((k == x) = true) with he | he
      · rw [if_pos he] at hx
        simp only [List.length_cons] at hx
        omega
      · rw [if_neg he] at hx
        exact hx

theorem wf_of_counts (df : DataFrame) (h : ∀ x, countCol df x ≤ 1) : wfNames df :=
  nodup_of_counts_list df.cols (fun x => h x)

theorem avail_names (r5 : DataFrame)
    (h1 : hasCol r5 "text" = true) (h2 : hasCol r5 "date" = true)
    (h3 : hasCol r5 "source" = true) (hle : ∀ x, countCol r5 x ≤ 1) :
    colNames (selectCols r5
        (required_columns ++ optional_columns.filter (fun c => hasCol r5 c))) =
      required_columns ++ optional_columns.filter (fun c => hasCol r5 c) := by
  rw [colNames_selectCols r5 _ hle, List.filter_append]
  congr 1
  · unfold required_columns
    simp [h1, h2, h3]
  · rw [List.filter_filter]
    refine List.filter_congr ?_
    intro x _
    cases hx : hasCol r5 x <;> simp [hx]

theorem wf_select (r5 : DataFrame)
    (h1 : hasCol r5 "text" = true) (h2 : hasCol r5 "date" = true)
    (h3 : hasCol r5 "source" = true) (hle : ∀ x, countCol r5 x ≤ 1) :
    wfNames (selectCols r5
      (required_columns ++ optional_columns.filter (fun c => hasCol r5 c))) := by
  unfold wfNames
  have hcn : colNames (selectCols r5
      (required_columns ++ optional_columns.filter (fun c => hasCol r5 c))) =
      required_columns ++ optional_columns.filter (fun c => hasCol r5 c) :=
    avail_names r5 h1 h2 h3 hle
  unfold colNames at hcn
  rw [hcn, List.nodup_append]
  refine ⟨by decide, List.Nodup.filter _ (by decide), ?_⟩
  intro a ha hb
  have hao : a ∈ optional_columns := (List.mem_filter.mp hb).1
  unfold required_columns at ha
  unfold optional_columns at hao
  rcases List.mem_cons.mp ha with rfl | ha
  · simp at hao
  rcases List.mem_cons.mp ha with rfl | ha
  · simp at hao
  rcases List.mem_cons.mp ha with rfl | ha
  · simp at hao
  · cases ha

theorem resolveText_none_none (df : DataFrame) (h : resolveTextColumn df none = none) :
    hasCol df "text" = false := by
  unfold resolveTextColumn at h
  have htr : truthyArg (none : Option String) = false := rfl
  rw [htr, Bool.cond_false] at h
  cases h1 : hasCol df "comment_text" <;> rw [h1] at h
  case true =>
    rw [Bool.cond_true] at h
    cases h
  rw [Bool.cond_false] at h
  cases h2 : hasCol df "self_text" <;> rw [h2] at h
  case true =>
    rw [Bool.cond_true] at h
    cases h
  rw [Bool.cond_false] at h
  cases h3 : hasCol df "lead_paragraph" <;> rw [h3] at h
  case true =>
    rw [Bool.cond_true] at h
    cases h
  rw [Bool.cond_false] at h
  cases h4 : hasCol df "text" <;> rw [h4] at h
  case true =>
    rw [Bool.cond_true] at h
    cases h

theorem resolveDate_ne_of_some {df : DataFrame} {x : String}
    (hx : ∀ c, resolveDateColumn df none = some c → c ≠ x) :
    resolveDateColumn df none ≠ some x := by
  intro he
  exact hx x he rfl

/-- Canonical run of `standardize_dataframe(df, source)` (both optional
column arguments `None`), under the two well-behavedness side
conditions: the text-resolved column does not collide with a distinct
existing `text` column, and is not also the date-resolved column. -/
theorem std_run0 (df : DataFrame) (s : String) (now : Nat)
    (hwf : wfNames df) (hne : dfEmpty df = false)
    (hcoll : ∀ t, resolveTextColumn df none = some t → t = "text" ∨ hasCol df "text" = false)
    (hclash : ∀ t, resolveTextColumn df none = some t → resolveDateColumn df none ≠ some t) :
    ∃ r5, standardize_dataframe df s none none now =
        .ok (selectCols r5
          (required_columns ++ optional_columns.filter (fun c => hasCol r5 c))) ∧
      r5.nrows = df.nrows ∧
      hasCol r5 "text" = true ∧ hasCol r5 "date" = true ∧ hasCol r5 "source" = true ∧
      countCol r5 "date" = 1 ∧ countCol r5 "text" = 1 ∧ countCol r5 "source" = 1 ∧
      (∀ x, countCol r5 x ≤ 1) ∧
      getCol r5 "text" = (match resolveTextColumn df none with
        | some t => getCol df t
        | none => List.replicate df.nrows (Val.str "")) ∧
      getCol r5 "date" = (match resolveDateColumn df none with
        | some c => (match toDatetimeCol (getCol df c) with
            | some p => p
            | none => List.replicate df.nrows (Val.dt now))
        | none => List.replicate df.nrows (Val.dt now)) ∧
      getCol r5 "source" = List.replicate df.nrows (Val.str s) ∧
      (∀ x ∈ optional_columns,
        hasCol r5 x = (if resolveDateColumn df none = some x then false else hasCol df x) ∧
        (resolveDateColumn df none ≠ some x → getCol r5 x = getCol df x)) := by
  have hdnt : resolveDateColumn df none ≠ some "text" :=
    resolveDate_ne_of_some (fun c hc => (resolveDate_none_ne df c hc).1)
  have hdns : resolveDateColumn df none ≠ some "source" :=
    resolveDate_ne_of_some (fun c hc => (resolveDate_none_ne df c hc).2.1)
  cases htres : resolveTextColumn df none with
  | some t =>
    rcases resolveText_none_shape df t htres with ⟨hthas, htne, _⟩
    rcases resolveText_none_ne df t htres with ⟨htd, hts, htopt⟩
    have hr2eq : standardize_textStep df (setColScalar df "source" (Val.str s))
        (resolveTextColumn df none) =
        renameCol (setColScalar df "source" (Val.str s)) t "text" :=
      textStep_eq_rename df _ none t htres htne hthas
    rcases textFacts_rename df
      (renameCol (setColScalar df "source" (Val.str s)) t "text") s t hwf hthas hts htd
      (hcoll t htres) rfl with ⟨f1, f2, f3, f4, f5, f6, f7, f8, f9, f10, f11, f12⟩
    have hres : ∀ c, resolveDateColumn df none = some c → c ≠ "date" →
        hasCol (renameCol (setColScalar df "source" (Val.str s)) t "text") c = true ∧
        countCol (renameCol (setColScalar df "source" (Val.str s)) t "text") c = 1 ∧
        getCol (renameCol (setColScalar df "source" (Val.str s)) t "text") c =
          getCol df c := by
      intro c hc _
      rcases resolveDate_none_ne df c hc with ⟨hct, hcs, _, _, _⟩
      have hctt : c ≠ t := fun he => hclash t htres (he ▸ hc)
      rcases f11 c hct hcs hctt with ⟨a1, a2, a3⟩
      have hchas := (resolveDate_none_shape df c hc).1
      exact ⟨by rw [a1, hchas],
        by rw [a3]; exact countCol_one_of_wf_has df hwf c hchas, a2⟩
    rcases std_run df _ s none now hwf hne hr2eq f1 f2 f3 f4 f5 f6 hres with
      ⟨r5, hok, hn5, ht5, hs5, hd5, hcd5, hgd5, htrans, hgone⟩
    have hct5 : countCol r5 "text" = 1 := by
      rw [(htrans "text" (by decide) hdnt).2.2, f8]
    have hcs5 : countCol r5 "source" = 1 := by
      rw [(htrans "source" (by decide) hdns).2.2, f10]
    refine ⟨r5, hok, hn5, ht5, hd5, hs5, hcd5, hct5, hcs5, ?_, ?_, hgd5, ?_, ?_⟩
    · intro x
      by_cases hxd : x = "date"
      · rw [hxd]
        exact le_of_eq hcd5
      rcases Decidable.em (resolveDateColumn df none = some x) with he | he
      · rw [(countCol_eq_zero r5 x).mpr (hgone x he hxd)]
        omega
      by_cases hxt : x = "text"
      · rw [hxt]
        exact le_of_eq hct5
      by_cases hxs : x = "source"
      · rw [hxs]
        exact le_of_eq hcs5
      rw [(htrans x hxd he).2.2]
      by_cases hxt2 : x = t
      · subst hxt2
        rw [(countCol_eq_zero _ x).mpr (f12 hxt)]
        omega
      · rw [(f11 x hxt hxs hxt2).2.2]
        exact countCol_le_one_of_nodup df hwf x
    · rw [(htrans "text" (by decide) hdnt).2.1, f7]
    · rw [(htrans "source" (by decide) hdns).2.1, f9]
    · intro x hxopt
      have hxd : x ≠ "date" := fun he => by
        rw [he] at hxopt
        exact absurd hxopt (by decide)
      have hxt : x ≠ "text" := fun he => by
        rw [he] at hxopt
        exact absurd hxopt (by decide)
      have hxs : x ≠ "source" := fun he => by
        rw [he] at hxopt
        exact absurd hxopt (by decide)
      have hxtt : x ≠ t := fun he => htopt (he ▸ hxopt)
      rcases Decidable.em (resolveDateColumn df none = some x) with he | he
      · rw [if_pos he]
        exact ⟨hgone x he hxd, fun hne2 => absurd he hne2⟩
      · rw [if_neg he]
        rcases htrans x hxd he with ⟨a1, a2, _⟩
        rcases f11 x hxt hxs hxtt with ⟨b1, b2, _⟩
        exact ⟨by rw [a1, b1], fun _ => by rw [a2, b2]⟩
  | none =>
    have htnone : hasCol df "text" = false := resolveText_none_none df htres
    have hr1text : hasCol (setColScalar df "source" (Val.str s)) "text" = false := by
      rw [hasCol_setColScalar_other df "source" "text" (Val.str s) (by decide), htnone]
    have hr2eq : standardize_textStep df (setColScalar df "source" (Val.str s))
        (resolveTextColumn df none) =
        setColScalar (setColScalar df "source" (Val.str s)) "text" (Val.str "") :=
      textStep_eq_fill df _ (resolveTextColumn df none)
        (.inl (by rw [htres]; rfl)) hr1text
    rcases textFacts_fill df
      (setColScalar (setColScalar df "source" (Val.str s)) "text" (Val.str "")) s hwf
      htnone rfl with ⟨f1, f2, f3, f4, f5, f6, f7, f8, f9, f10, f11⟩
    have hres : ∀ c, resolveDateColumn df none = some c → c ≠ "date" →
        hasCol (setColScalar (setColScalar df "source" (Val.str s)) "text" (Val.str "")) c
          = true ∧
        countCol (setColScalar (setColScalar df "source" (Val.str s)) "text" (Val.str "")) c
          = 1 ∧
        getCol (setColScalar (setColScalar df "source" (Val.str s)) "text" (Val.str "")) c
          = getCol df c := by
      intro c hc _
      rcases resolveDate_none_ne df c hc with ⟨hct, hcs, _, _, _⟩
      rcases f11 c hcs hct with ⟨a1, a2, a3⟩
      have hchas := (resolveDate_none_shape df c hc).1
      exact ⟨by rw [a1, hchas],
        by rw [a3]; exact countCol_one_of_wf_has df hwf c hchas, a2⟩
    rcases std_run df _ s none now hwf hne hr2eq f1 f2 f3 f4 f5 f6 hres with
      ⟨r5, hok, hn5, ht5, hs5, hd5, hcd5, hgd5, htrans, hgone⟩
    have hct5 : countCol r5 "text" = 1 := by
      rw [(htrans "text" (by decide) hdnt).2.2, f8]
    have hcs5 : countCol r5 "source" = 1 := by
      rw [(htrans "source" (by decide) hdns).2.2, f10]
    refine ⟨r5, hok, hn5, ht5, hd5, hs5, hcd5, hct5, hcs5, ?_, ?_, hgd5, ?_, ?_⟩
    · intro x
      by_cases hxd : x = "date"
      · rw [hxd]
        exact le_of_eq hcd5
      rcases Decidable.em (resolveDateColumn df none = some x) with he | he
      · rw [(countCol_eq_zero r5 x).mpr (hgone x he hxd)]
        omega
      by_cases hxt : x = "text"
      · rw [hxt]
        exact le_of_eq hct5
      by_cases hxs : x = "source"
      · rw [hxs]
        exact le_of_eq hcs5
      rw [(htrans x hxd he).2.2, (f11 x hxs hxt).2.2]
      exact countCol_le_one_of_nodup df hwf x
    · rw [(htrans "text" (by decide) hdnt).2.1, f7]
    · rw [(htrans "source" (by decide) hdns).2.1, f9]
    · intro x hxopt
      have hxd : x ≠ "date" := fun he => by
        rw [he] at hxopt
        exact absurd hxopt (by decide)
      have hxt : x ≠ "text" := fun he => by
        rw [he] at hxopt
        exact absurd hxopt (by decide)
      have hxs : x ≠ "source" := fun he => by
        rw [he] at hxopt
        exact absurd hxopt (by decide)
      rcases Decidable.em (resolveDateColumn df none = some x) with he | he
      · rw [if_pos he]
        exact ⟨hgone x he hxd, fun hne2 => absurd he hne2⟩
      · rw [if_neg he]
        rcases htrans x hxd he with ⟨a1, a2, _⟩
        rcases f11 x hxs hxt with ⟨b1, b2, _⟩
        exact ⟨by rw [a1, b1], fun _ => by rw [a2, b2]⟩

/-! ### Access into the projected output, and decidable side conditions -/

theorem getCol_project (r5 : DataFrame) (m : String)
    (hm : m ∈ required_columns ++ optional_columns.filter (fun c => hasCol r5 c)) :
    getCol (selectCols r5
      (required_columns ++ optional_columns.filter (fun c => hasCol r5 c))) m =
      getCol r5 m := by
  have hc : (required_columns ++ optional_columns.filter
      (fun c => hasCol r5 c)).contains m = true := List.elem_iff.mpr hm
  rw [getCol_selectCols, hc, Bool.cond_true]

theorem textSafe_to_forall (df : DataFrame)
    (h : hasCol df "text" = false ∨ resolveTextColumn df none = some "text" ∨
      resolveTextColumn df none = none) :
    ∀ t, resolveTextColumn df none = some t → t = "text" ∨ hasCol df "text" = false := by
  intro t ht
  rcases h with h | h | h
  · exact .inr h
  · rw [h] at ht
    exact .inl (Option.some.inj ht).symm
  · rw [h] at ht
    exact Option.noConfusion ht

theorem noClash_to_forall (df : DataFrame)
    (h : resolveTextColumn df none ≠ resolveDateColumn df none ∨
      resolveTextColumn df none = none) :
    ∀ t, resolveTextColumn df none = some t → resolveDateColumn df none ≠ some t := by
  intro t ht hd
  rcases h with h | h
  · rw [ht, hd] at h
    exact h rfl
  · rw [h] at ht
    exact Option.noConfusion ht

/-- Facts about the frame after the text step of a canonical call,
needing no collision proviso: a `text` and `source` column exist, the
row count is preserved, and every column other than `text`, `source`
and the text-resolved one is untouched (in particular this covers
inputs where the rename creates duplicate `text` labels). -/
theorem textStep_none_facts (df : DataFrame) (s : String) :
    hasCol (standardize_textStep df (setColScalar df "source" (Val.str s))
      (resolveTextColumn df none)) "text" = true ∧
    hasCol (standardize_textStep df (setColScalar df "source" (Val.str s))
      (resolveTextColumn df none)) "source" = true ∧
    (standardize_textStep df (setColScalar df "source" (Val.str s))
      (resolveTextColumn df none)).nrows = df.nrows ∧
    (∀ x, x ≠ "text" → x ≠ "source" → resolveTextColumn df none ≠ some x →
      hasCol (standardize_textStep df (setColScalar df "source" (Val.str s))
        (resolveTextColumn df none)) x = hasCol df x ∧
      getCol (standardize_textStep df (setColScalar df "source" (Val.str s))
        (resolveTextColumn df none)) x = getCol df x ∧
      countCol (standardize_textStep df (setColScalar df "source" (Val.str s))
        (resolveTextColumn df none)) x = countCol df x) := by
  have t1 : ∀ x, x ≠ "source" →
      hasCol (setColScalar df "source" (Val.str s)) x = hasCol df x ∧
      getCol (setColScalar df "source" (Val.str s)) x = getCol df x ∧
      countCol (setColScalar df "source" (Val.str s)) x = countCol df x := fun x hx =>
    ⟨hasCol_setColScalar_other df "source" x (Val.str s) hx,
     getCol_setColScalar_other df "source" x (Val.str s) (fun he => hx he.symm),
     countCol_setColScalar_other df "source" x (Val.str s) (fun he => hx he.symm)⟩
  have hs1 : hasCol (setColScalar df "source" (Val.str s)) "source" = true :=
    hasCol_setColScalar_self df "source" (Val.str s)
  cases hres : resolveTextColumn df none with
  | none =>
    rw [textStep_skip df (setColScalar df "source" (Val.str s)) none (.inl rfl)]
    cases h1 : hasCol (setColScalar df "source" (Val.str s)) "text"
    · simp only [Bool.not_false, Bool.cond_true]
      refine ⟨hasCol_setColScalar_self _ "text" (Val.str ""), ?_, ?_, ?_⟩
      · rw [hasCol_setColScalar_other _ "text" "source" (Val.str "") (by decide)]
        exact hs1
      · rw [nrows_setColScalar, nrows_setColScalar]
      · intro x hxt hxs _
        rcases t1 x hxs with ⟨a1, a2, a3⟩
        exact ⟨by rw [hasCol_setColScalar_other _ "text" x (Val.str "") hxt, a1],
          by rw [getCol_setColScalar_other _ "text" x (Val.str "") (fun he => hxt he.symm),
            a2],
          by rw [countCol_setColScalar_other _ "text" x (Val.str "")
            (fun he => hxt he.symm), a3]⟩
    · simp only [Bool.not_true, Bool.cond_false]
      refine ⟨h1, hs1, nrows_setColScalar df "source" (Val.str s), ?_⟩
      intro x hxt hxs _
      exact t1 x hxs
  | some t =>
    rcases resolveText_none_shape df t hres with ⟨hthas, htne, _⟩
    rcases resolveText_none_ne df t hres with ⟨htd, hts, _⟩
    rw [textStep_rename df (setColScalar df "source" (Val.str s)) t htne hthas]
    refine ⟨?_, ?_, ?_, ?_⟩
    · rw [hasCol_renameCol_target, (t1 t hts).1, hthas]
      rfl
    · rw [hasCol_renameCol_other _ t "text" "source" (fun he => hts he.symm) (by decide)]
      exact hs1
    · rw [nrows_renameCol, nrows_setColScalar]
    · intro x hxt hxs hxr
      have hxtt : x ≠ t := fun he => hxr (by rw [he])
      rcases t1 x hxs with ⟨a1, a2, a3⟩
      exact ⟨by rw [hasCol_renameCol_other _ t "text" x hxtt hxt, a1],
        by rw [getCol_renameCol_other _ t "text" x hxtt hxt, a2],
        by rw [countCol_renameCol_other _ t "text" x hxtt hxt, a3]⟩

theorem resolveText_none_ne_date (df : DataFrame) :
    resolveTextColumn df none ≠ some "date" := by
  cases hrt : resolveTextColumn df none with
  | none => exact fun he => Option.noConfusion he
  | some t =>
    intro he
    exact (resolveText_none_ne df t hrt).1 (Option.some.inj he)

/-- C6: on every non-empty input where a date column is found by the
automatic resolution and its values do not all parse, every row of the
output's `date` column is the observed current timestamp — a
whole-column fallback.  Only the amendment's no-clash proviso is
needed (text resolution must not pick that same column); a collision
with a pre-existing `text` column is permitted.  The claim's
never-raises part fails exactly at a clash, see the counterexample. -/
theorem c6_theorem (df : DataFrame) (s : String) (now : Nat) (c : String)
    (hwf : wfNames df) (hne : dfEmpty df = false)
    (hclash : resolveTextColumn df none ≠ resolveDateColumn df none ∨
      resolveTextColumn df none = none)
    (hdres : resolveDateColumn df none = some c)
    (hfail : toDatetimeCol (getCol df c) = none) :
    ∃ T, standardize_dataframe df s none none now = .ok T ∧
      getCol T "date" = List.replicate df.nrows (Val.dt now) := by
  have hclash2 := noClash_to_forall df hclash
  rcases textStep_none_facts df s with ⟨f1, f2, f3, ftr⟩
  rcases ftr "date" (by decide) (by decide) (resolveText_none_ne_date df) with ⟨g1, g2, g3⟩
  have hres : ∀ c2, resolveDateColumn df none = some c2 → c2 ≠ "date" →
      hasCol (standardize_textStep df (setColScalar df "source" (Val.str s))
        (resolveTextColumn df none)) c2 = true ∧
      countCol (standardize_textStep df (setColScalar df "source" (Val.str s))
        (resolveTextColumn df none)) c2 = 1 ∧
      getCol (standardize_textStep df (setColScalar df "source" (Val.str s))
        (resolveTextColumn df none)) c2 = getCol df c2 := by
    intro c2 hc2 _
    rcases resolveDate_none_ne df c2 hc2 with ⟨hct, hcs, _, _, _⟩
    have hxr : resolveTextColumn df none ≠ some c2 :=
      fun he => absurd hc2 (hclash2 c2 he)
    rcases ftr c2 hct hcs hxr with ⟨a1, a2, a3⟩
    have hchas := (resolveDate_none_shape df c2 hc2).1
    exact ⟨by rw [a1, hchas],
      by rw [a3]; exact countCol_one_of_wf_has df hwf c2 hchas, a2⟩
  rcases std_run df _ s none now hwf hne rfl f1 f2 f3 g1 g3 g2 hres with
    ⟨r5, hok, _, ht5, hs5, hd5, _, hgd, _, _⟩
  refine ⟨_, hok, ?_⟩
  rw [getCol_project r5 "date" (List.mem_append_left _ (by decide))]
  simp only [hgd, hdres, hfail]

theorem c6_witness :
    ∃ T, standardize_dataframe ⟨1, [("text", [Val.str "a"]),
        ("comment_text", [Val.str "b"]), ("created_time", [Val.str "junk"])]⟩
        "S" none none 5 = .ok T ∧
      getCol T "date" = List.replicate 1 (Val.dt 5) :=
  c6_theorem ⟨1, [("text", [Val.str "a"]), ("comment_text", [Val.str "b"]),
      ("created_time", [Val.str "junk"])]⟩ "S" 5 "created_time"
    (by decide) (by decide) (by decide) (by decide) (by decide)

/-- C5: with no explicit text argument, on a non-empty input, the
output's `text` values follow the claimed priority: the first of
`comment_text`, `self_text`, `lead_paragraph`, `text` present in the
input; else the first column whose lowercased name contains "text" or
"comment"; else the empty string in every row.  Two provisos are part
of the amendment: the resolved column must not collide with a distinct
pre-existing `text` column (the rename then creates duplicate `text`
labels and the input's original `text` values can win instead of the
resolved column's), and must not also be the date-resolved column (the
call then raises `KeyError`, see the counterexample). -/
theorem c5_theorem (df : DataFrame) (s : String) (now : Nat)
    (hwf : wfNames df) (hne : dfEmpty df = false)
    (hcoll : hasCol df "text" = false ∨ resolveTextColumn df none = some "text" ∨
      resolveTextColumn df none = none)
    (hclash : resolveTextColumn df none ≠ resolveDateColumn df none ∨
      resolveTextColumn df none = none) :
    ∃ T, standardize_dataframe df s none none now = .ok T ∧
      getCol T "text" =
        (bif hasCol df "comment_text" then getCol df "comment_text"
         else bif hasCol df "self_text" then getCol df "self_text"
         else bif hasCol df "lead_paragraph" then getCol df "lead_paragraph"
         else bif hasCol df "text" then getCol df "text"
         else match (colNames df).find? textNameHeur with
           | some t => getCol df t
           | none => List.replicate df.nrows (Val.str "")) := by
  rcases std_run0 df s now hwf hne (textSafe_to_forall df hcoll)
    (noClash_to_forall df hclash) with
    ⟨r5, hok, _, ht5, hd5, hs5, _, _, _, _, hgt, _, _, _⟩
  refine ⟨_, hok, ?_⟩
  rw [getCol_project r5 "text" (List.mem_append_left _ (by decide)), hgt]
  have hrt : resolveTextColumn df none =
      (bif hasCol df "comment_text" then some "comment_text"
       else bif hasCol df "self_text" then some "self_text"
       else bif hasCol df "lead_paragraph" then some "lead_paragraph"
       else bif hasCol df "text" then some "text"
       else (colNames df).find? textNameHeur) := rfl
  rw [hrt]
  cases h1 : hasCol df "comment_text"
  · cases h2 : hasCol df "self_text"
    · cases h3 : hasCol df "lead_paragraph"
      · cases h4 : hasCol df "text"
        · cases h5 : (colNames df).find? textNameHeur <;> rfl
        · rfl
      · rfl
    · rfl
  · rfl

theorem c5_witness :
    ∃ T, standardize_dataframe
        ⟨1, [("self_text", [Val.str "hello"]), ("date", [Val.str "2021-03-04"])]⟩
        "R" none none 2 = .ok T ∧
      getCol T "text" =
        (bif hasCol ⟨1, [("self_text", [Val.str "hello"]),
            ("date", [Val.str "2021-03-04"])]⟩ "comment_text" then
          getCol ⟨1, [("self_text", [Val.str "hello"]),
            ("date", [Val.str "2021-03-04"])]⟩ "comment_text"
         else bif hasCol ⟨1, [("self_text", [Val.str "hello"]),
            ("date", [Val.str "2021-03-04"])]⟩ "self_text" then
          getCol ⟨1, [("self_text", [Val.str "hello"]),
            ("date", [Val.str "2021-03-04"])]⟩ "self_text"
         else bif hasCol ⟨1, [("self_text", [Val.str "hello"]),
            ("date", [Val.str "2021-03-04"])]⟩ "lead_paragraph" then
          getCol ⟨1, [("self_text", [Val.str "hello"]),
            ("date", [Val.str "2021-03-04"])]⟩ "lead_paragraph"
         else bif hasCol ⟨1, [("self_text", [Val.str "hello"]),
            ("date", [Val.str "2021-03-04"])]⟩ "text" then
          getCol ⟨1, [("self_text", [Val.str "hello"]),
            ("date", [Val.str "2021-03-04"])]⟩ "text"
         else match (colNames ⟨1, [("self_text", [Val.str "hello"]),
            ("date", [Val.str "2021-03-04"])]⟩).find? textNameHeur with
           | some t => getCol ⟨1, [("self_text", [Val.str "hello"]),
              ("date", [Val.str "2021-03-04"])]⟩ t
           | none => List.replicate 1 (Val.str "")) :=
  c5_theorem ⟨1, [("self_text", [Val.str "hello"]), ("date", [Val.str "2021-03-04"])]⟩
    "R" 2 (by decide) (by decide) (by decide) (by decide)

/-- C3: on every non-empty input, under the amended provisos (no text
collision, no text/date clash, and the date heuristic not capturing an
optional column), the output's column list is exactly `text`, `date`,
`source` followed by those optional columns present in the input, each
label once, optional values passed through unchanged, and `source` is
the literal argument in every row.  The non-emptiness proviso is
needed because helpers.py line 23 returns a bare `[text, date,
source]` table for an empty input, dropping the optionals; the main
correction is the counterexample: `"time"` is a substring of
`"sentiment"`, so the date heuristic can consume the optional
`sentiment` column. -/
theorem c3_theorem (df : DataFrame) (s : String) (now : Nat)
    (hwf : wfNames df) (hne : dfEmpty df = false)
    (hcoll : hasCol df "text" = false ∨ resolveTextColumn df none = some "text" ∨
      resolveTextColumn df none = none)
    (hclash : resolveTextColumn df none ≠ resolveDateColumn df none ∨
      resolveTextColumn df none = none)
    (hdopt : ∀ x ∈ optional_columns, resolveDateColumn df none ≠ some x) :
    ∃ T, standardize_dataframe df s none none now = .ok T ∧
      wfNames T ∧
      colNames T = required_columns ++ optional_columns.filter (fun c => hasCol df c) ∧
      (∀ x ∈ optional_columns, hasCol df x = true → getCol T x = getCol df x) ∧
      getCol T "source" = List.replicate df.nrows (Val.str s) := by
  rcases std_run0 df s now hwf hne (textSafe_to_forall df hcoll)
    (noClash_to_forall df hclash) with
    ⟨r5, hok, hn5, ht5, hd5, hs5, _, _, _, hle, _, _, hgs, hopt⟩
  have hfeq : optional_columns.filter (fun c => hasCol r5 c) =
      optional_columns.filter (fun c => hasCol df c) := by
    refine List.filter_congr ?_
    intro x hx
    rw [(hopt x hx).1, if_neg (hdopt x hx)]
  refine ⟨_, hok, wf_select r5 ht5 hd5 hs5 hle, ?_, ?_, ?_⟩
  · rw [avail_names r5 ht5 hd5 hs5 hle, hfeq]
  · intro x hxo hxd
    have hmem : x ∈ required_columns ++
        optional_columns.filter (fun c => hasCol r5 c) := by
      refine List.mem_append_right _ ?_
      refine List.mem_filter.mpr ⟨hxo, ?_⟩
      rw [(hopt x hxo).1, if_neg (hdopt x hxo), hxd]
    rw [getCol_project r5 x hmem]
    exact (hopt x hxo).2 (hdopt x hxo)
  · rw [getCol_project r5 "source" (List.mem_append_left _ (by decide)), hgs]

theorem c3_witness :
    ∃ T, standardize_dataframe ⟨1, [("text", [Val.str "a"]), ("date", [Val.dt 3]),
        ("author", [Val.str "bob"]), ("junk", [Val.str "x"])]⟩ "N" none none 1 = .ok T ∧
      wfNames T ∧
      colNames T = required_columns ++ optional_columns.filter
        (fun c => hasCol ⟨1, [("text", [Val.str "a"]), ("date", [Val.dt 3]),
          ("author", [Val.str "bob"]), ("junk", [Val.str "x"])]⟩ c) ∧
      (∀ x ∈ optional_columns,
        hasCol ⟨1, [("text", [Val.str "a"]), ("date", [Val.dt 3]),
          ("author", [Val.str "bob"]), ("junk", [Val.str "x"])]⟩ x = true →
        getCol T x = getCol ⟨1, [("text", [Val.str "a"]), ("date", [Val.dt 3]),
          ("author", [Val.str "bob"]), ("junk", [Val.str "x"])]⟩ x) ∧
      getCol T "source" = List.replicate 1 (Val.str "N") :=
  c3_theorem ⟨1, [("text", [Val.str "a"]), ("date", [Val.dt 3]),
      ("author", [Val.str "bob"]), ("junk", [Val.str "x"])]⟩ "N" 1
    (by decide) (by decide) (by decide) (by decide) (by decide)

/-- C1: merge takes no hidden input in this embedding (it is a pure
function of its arguments), and standardize is deterministic in its
program-level arguments exactly when it does not consult the clock:
whenever the input table (a mapping, i.e. duplicate-free labels)
carries a parseable `date` column, two runs observing different clock
values return the same table, with no further proviso — every clock
use sits in a branch such a run never takes.  The unamended claim —
determinism including "where no date column is found" — is refuted by
the counterexample, where the two clock values leak into the
output. -/
theorem c1_theorem (df : DataFrame) (s : String) (now1 now2 : Nat) (p : List Val)
    (hwf : wfNames df) (hdd : hasCol df "date" = true)
    (hp : toDatetimeCol (getCol df "date") = some p) :
    standardize_dataframe df s none none now1 =
      standardize_dataframe df s none none now2 := by
  cases hemp : dfEmpty df
  case true =>
    rw [std_empty df s none none now1 hemp, std_empty df s none none now2 hemp]
  case false =>
  have hrd : resolveDateColumn df none = some "date" := by
    unfold resolveDateColumn
    rw [show truthyArg (none : Option String) = false from rfl, Bool.cond_false, hdd,
      Bool.cond_true]
  rcases textStep_none_facts df s with ⟨f1, f2, f3, ftr⟩
  rcases ftr "date" (by decide) (by decide) (resolveText_none_ne_date df) with
    ⟨g1, g2, g3⟩
  have h2has : hasCol (standardize_textStep df (setColScalar df "source" (Val.str s))
      (resolveTextColumn df none)) "date" = true := by
    rw [g1, hdd]
  have h2cnt : countCol (standardize_textStep df (setColScalar df "source" (Val.str s))
      (resolveTextColumn df none)) "date" = 1 := by
    rw [g3]
    exact countCol_one_of_wf_has df hwf "date" hdd
  have hsel : toDatetimeSel (standardize_textStep df (setColScalar df "source" (Val.str s))
      (resolveTextColumn df none)) "date" = some p := by
    rw [toDatetimeSel_eq _ "date" h2cnt, g2, hp]
  rw [std_unfold df s none none now1 hemp, std_unfold df s none none now2 hemp, hrd,
    dateStep_found df _ "date" now1 (by decide) hdd,
    dateStep_found df _ "date" now2 (by decide) hdd, renameCol_self]
  simp only [h2has, Bool.not_true, Bool.cond_false]
  cases hdt : isDatetimeSel (standardize_textStep df (setColScalar df "source" (Val.str s))
      (resolveTextColumn df none)) "date"
  · simp only [Bool.not_false, Bool.cond_true, hsel]
    have hh4 : hasCol (setColValues (standardize_textStep df
        (setColScalar df "source" (Val.str s)) (resolveTextColumn df none)) "date" p)
        "date" = true := by
      rw [hasCol_setColValues, h2has]
    have hc4 : countCol (setColValues (standardize_textStep df
        (setColScalar df "source" (Val.str s)) (resolveTextColumn df none)) "date" p)
        "date" = 1 := by
      rw [countCol_setColValues, h2cnt]
    have hsel4 : toDatetimeSel (setColValues (standardize_textStep df
        (setColScalar df "source" (Val.str s)) (resolveTextColumn df none)) "date" p)
        "date" = some p := by
      rw [toDatetimeSel_eq _ "date" hc4, getCol_setColValues_self _ "date" p h2has]
      exact toDatetimeCol_idem hp
    rw [finalDate_found_parsed _ now1 p hh4 hsel4,
      finalDate_found_parsed _ now2 p hh4 hsel4]
  · simp only [Bool.not_true, Bool.cond_false]
    rw [finalDate_found_parsed _ now1 p h2has hsel,
      finalDate_found_parsed _ now2 p h2has hsel]

theorem c1_witness :
    standardize_dataframe ⟨1, [("text", [Val.str "a"]), ("comment_text", [Val.str "b"]),
        ("date", [Val.dt 7])]⟩ "S" none none 0 =
      standardize_dataframe ⟨1, [("text", [Val.str "a"]), ("comment_text", [Val.str "b"]),
        ("date", [Val.dt 7])]⟩ "S" none none 99 :=
  c1_theorem ⟨1, [("text", [Val.str "a"]), ("comment_text", [Val.str "b"]),
      ("date", [Val.dt 7])]⟩ "S" 0 99 [Val.dt 7]
    (by decide) (by decide) (by decide)

/-- Continuation of a run whose date step took the no-rename path
(helpers.py line 68 test false): fill `date` with the clock when the
column is absent (line 79), re-parse (lines 81-86), project (lines
88-93). -/
theorem skipTail (r2 : DataFrame) (now : Nat)
    (ht : hasCol r2 "text" = true) (hs : hasCol r2 "source" = true)
    (hcd : hasCol r2 "date" = true → countCol r2 "date" = 1) :
    ∃ r5,
      (match (bif !hasCol r2 "date" then
          Except.ok (setColScalar r2 "date" (Val.dt now))
        else Except.ok r2 : Except String DataFrame) with
        | .error e => Except.error e
        | .ok r4 => standardize_project (standardize_finalDate r4 now)) =
        Except.ok (selectCols r5
          (required_columns ++ optional_columns.filter (fun c => hasCol r5 c))) ∧
      r5.nrows = r2.nrows ∧
      hasCol r5 "date" = true ∧ countCol r5 "date" = 1 ∧
      getCol r5 "date" = (bif hasCol r2 "date"
        then (match toDatetimeCol (getCol r2 "date") with
          | some p => p
          | none => List.replicate r2.nrows (Val.dt now))
        else List.replicate r2.nrows (Val.dt now)) ∧
      (∀ x, x ≠ "date" → hasCol r5 x = hasCol r2 x ∧ getCol r5 x = getCol r2 x ∧
        countCol r5 x = countCol r2 x) := by
  cases h2 : hasCol r2 "date"
  · simp only [Bool.not_false, Bool.cond_true, Bool.cond_false]
    have hh4 : hasCol (setColScalar r2 "date" (Val.dt now)) "date" = true :=
      hasCol_setColScalar_self _ _ _
    have hcnt4 : countCol (setColScalar r2 "date" (Val.dt now)) "date" = 1 := by
      rw [countCol_setColScalar_new r2 "date" "date" (Val.dt now) h2,
        (countCol_eq_zero r2 "date").mpr h2]
      simp
    have hget4 : getCol (setColScalar r2 "date" (Val.dt now)) "date" =
        List.replicate r2.nrows (Val.dt now) := getCol_setColScalar_self _ _ _
    rcases finStage (setColScalar r2 "date" (Val.dt now)) now
        (List.replicate r2.nrows (Val.dt now)) hh4 hcnt4 hget4 with
      ⟨r5, hfin, hn5, hh5, hc5, hg5, htr5⟩
    have htr : ∀ x, x ≠ "date" → hasCol r5 x = hasCol r2 x ∧ getCol r5 x = getCol r2 x ∧
        countCol r5 x = countCol r2 x := by
      intro x hx
      rcases htr5 x hx with ⟨a1, a2, a3⟩
      exact ⟨by rw [a1, hasCol_setColScalar_other r2 "date" x (Val.dt now) hx],
        by rw [a2, getCol_setColScalar_other r2 "date" x (Val.dt now) (fun he => hx he.symm)],
        by rw [a3,
          countCol_setColScalar_other r2 "date" x (Val.dt now) (fun he => hx he.symm)]⟩
    have ht5 : hasCol r5 "text" = true := by rw [(htr "text" (by decide)).1, ht]
    have hs5 : hasCol r5 "source" = true := by rw [(htr "source" (by decide)).1, hs]
    refine ⟨r5, ?_, by rw [hn5, nrows_setColScalar], hh5, hc5, ?_, htr⟩
    · show standardize_project
        (standardize_finalDate (setColScalar r2 "date" (Val.dt now)) now) = _
      rw [hfin]
      exact project_ok r5 ht5 hh5 hs5
    · rw [hg5, toDatetimeCol_replicate]
  · simp only [Bool.not_true, Bool.cond_false, Bool.cond_true]
    rcases finStage r2 now (getCol r2 "date") h2 (hcd h2) rfl with
      ⟨r5, hfin, hn5, hh5, hc5, hg5, htr5⟩
    have ht5 : hasCol r5 "text" = true := by rw [(htr5 "text" (by decide)).1, ht]
    have hs5 : hasCol r5 "source" = true := by rw [(htr5 "source" (by decide)).1, hs]
    refine ⟨r5, ?_, hn5, hh5, hc5, hg5, fun x hx => htr5 x hx⟩
    · show standardize_project (standardize_finalDate r2 now) = _
      rw [hfin]
      exact project_ok r5 ht5 hh5 hs5

/-- C10: a truthy explicit `text_col` (resp. `date_col`) argument
naming an absent column is silently ignored (helpers.py lines 61 and
68 test presence): the output's `text` falls back to the input's
existing `text` column, else to empty strings; `date` falls back to
the parse of the input's existing `date` column (clock on parse
failure), else to the clock for every row.  No error is raised. -/
theorem c10_theorem (df : DataFrame) (s b b2 : String) (now : Nat)
    (hwf : wfNames df) (hne : dfEmpty df = false)
    (hb : b ≠ "") (hbabs : hasCol df b = false)
    (hb2 : b2 ≠ "") (hb2abs : hasCol df b2 = false) :
    ∃ T, standardize_dataframe df s (some b) (some b2) now = .ok T ∧
      getCol T "text" = (bif hasCol df "text" then getCol df "text"
        else List.replicate df.nrows (Val.str "")) ∧
      getCol T "date" = (bif hasCol df "date"
        then (match toDatetimeCol (getCol df "date") with
          | some p => p
          | none => List.replicate df.nrows (Val.dt now))
        else List.replicate df.nrows (Val.dt now)) := by
  have hrt : resolveTextColumn df (some b) = some b := by
    unfold resolveTextColumn
    have htr : truthyArg (some b) = true := by
      unfold truthyArg
      simp [hb]
    rw [htr, Bool.cond_true]
  have hrd : resolveDateColumn df (some b2) = some b2 := by
    unfold resolveDateColumn
    have htr : truthyArg (some b2) = true := by
      unfold truthyArg
      simp [hb2]
    rw [htr, Bool.cond_true]
  obtain ⟨r2, hr2eq, f1, f2, f3, f4, f5, f6, f7⟩ :
      ∃ r2, standardize_textStep df (setColScalar df "source" (Val.str s))
          (resolveTextColumn df (some b)) = r2 ∧
        hasCol r2 "text" = true ∧ hasCol r2 "source" = true ∧ r2.nrows = df.nrows ∧
        hasCol r2 "date" = hasCol df "date" ∧
        (hasCol r2 "date" = true → countCol r2 "date" = 1) ∧
        getCol r2 "date" = getCol df "date" ∧
        getCol r2 "text" = (bif hasCol df "text" then getCol df "text"
          else List.replicate df.nrows (Val.str "")) := by
    cases htx : hasCol df "text"
    · have h1f : hasCol (setColScalar df "source" (Val.str s)) "text" = false := by
        rw [((srcFacts df s hwf).2.2.2.2 "text" (by decide)).1, htx]
      have hstep : standardize_textStep df (setColScalar df "source" (Val.str s))
          (resolveTextColumn df (some b)) =
          setColScalar (setColScalar df "source" (Val.str s)) "text" (Val.str "") := by
        rw [hrt]
        exact textStep_eq_fill df _ (some b) (.inr hbabs) h1f
      rcases textFacts_fill df
          (setColScalar (setColScalar df "source" (Val.str s)) "text" (Val.str "")) s hwf
          htx rfl with ⟨g1, g2, g3, g4, g5, g6, g7, g8, g9, g10, g11⟩
      refine ⟨_, hstep, g1, g2, g3, g4, ?_, g6, ?_⟩
      · intro hd
        rw [g5]
        refine countCol_one_of_wf_has df hwf "date" ?_
        rw [← g4]
        exact hd
      · rw [g7]
        rfl
    · have h1t : hasCol (setColScalar df "source" (Val.str s)) "text" = true := by
        rw [((srcFacts df s hwf).2.2.2.2 "text" (by decide)).1, htx]
      have hstep : standardize_textStep df (setColScalar df "source" (Val.str s))
          (resolveTextColumn df (some b)) = setColScalar df "source" (Val.str s) := by
        rw [hrt]
        exact textStep_eq_keep df _ (some b) (.inr hbabs) h1t
      rcases textFacts_keep df (setColScalar df "source" (Val.str s)) s hwf htx rfl with
        ⟨g1, g2, g3, g4, g5, g6, g7, g8, g9, g10, g11⟩
      refine ⟨_, hstep, g1, g2, g3, g4, ?_, g6, ?_⟩
      · intro hd
        rw [g5]
        refine countCol_one_of_wf_has df hwf "date" ?_
        rw [← g4]
        exact hd
      · rw [g7]
        rfl
  rw [std_unfold df s (some b) (some b2) now hne, hr2eq, hrd,
    dateStep_skip df r2 (some b2) now (.inr hb2abs)]
  rcases skipTail r2 now f1 f2 f5 with ⟨r5, hrun, hn5, hh5, hc5, hg5, htr⟩
  refine ⟨_, hrun, ?_, ?_⟩
  · rw [getCol_project r5 "text" (List.mem_append_left _ (by decide)),
      (htr "text" (by decide)).2.1, f7]
  · rw [getCol_project r5 "date" (List.mem_append_left _ (by decide)), hg5, f4, f6, f3]

theorem c10_witness :
    ∃ T, standardize_dataframe ⟨1, [("text", [Val.str "t"]), ("date", [Val.dt 2])]⟩
        "S" (some "bogus") (some "nope") 9 = .ok T ∧
      getCol T "text" = (bif hasCol ⟨1, [("text", [Val.str "t"]),
          ("date", [Val.dt 2])]⟩ "text" then
        getCol ⟨1, [("text", [Val.str "t"]), ("date", [Val.dt 2])]⟩ "text"
        else List.replicate 1 (Val.str "")) ∧
      getCol T "date" = (bif hasCol ⟨1, [("text", [Val.str "t"]),
          ("date", [Val.dt 2])]⟩ "date"
        then (match toDatetimeCol (getCol ⟨1, [("text", [Val.str "t"]),
            ("date", [Val.dt 2])]⟩ "date") with
          | some p => p
          | none => List.replicate 1 (Val.dt 9))
        else List.replicate 1 (Val.dt 9)) :=
  c10_theorem ⟨1, [("text", [Val.str "t"]), ("date", [Val.dt 2])]⟩ "S" "bogus" "nope" 9
    (by decide) (by decide) (by decide) (by decide) (by decide) (by decide)

theorem toDatetimeCol_replicate_some (k : Nat) (v w : Val) (h : toDatetimeVal v = some w) :
    toDatetimeCol (List.replicate k v) = some (List.replicate k w) := by
  induction k with
  | zero => rfl
  | succ k ih =>
    rw [List.replicate_succ, List.replicate_succ]
    unfold toDatetimeCol
    simp only [h, ih]

theorem mem_cols_setColScalar (df : DataFrame) (n : String) (v : Val)
    (p : String × List Val) (h : p ∈ (setColScalar df n v).cols) :
    (p.1 = n ∧ p.2 = List.replicate df.nrows v) ∨ p ∈ df.cols := by
  unfold setColScalar at h
  cases hc : hasCol df n <;> rw [hc] at h
  · rw [Bool.cond_false] at h
    rcases List.mem_append.mp h with h | h
    · exact .inr h
    · rw [List.mem_singleton] at h
      subst h
      exact .inl ⟨rfl, rfl⟩
  · rw [Bool.cond_true] at h
    rcases List.mem_map.mp h with ⟨q, hq, he⟩
    cases hcq : (q.1 == n)
    · rw [hcq, Bool.cond_false] at he
      exact .inr (he ▸ hq)
    · rw [hcq, Bool.cond_true] at he
      have hq1 : q.1 = n := by simpa using hcq
      refine .inl ⟨?_, ?_⟩
      · rw [← he]
        exact hq1
      · rw [← he]

theorem mem_cols_setColValues (df : DataFrame) (n : String) (w : List Val)
    (p : String × List Val) (h : p ∈ (setColValues df n w).cols) :
    (p.1 = n ∧ p.2 = w) ∨ p ∈ df.cols := by
  unfold setColValues at h
  rcases List.mem_map.mp h with ⟨q, hq, he⟩
  cases hcq : (q.1 == n)
  · rw [hcq, Bool.cond_false] at he
    exact .inr (he ▸ hq)
  · rw [hcq, Bool.cond_true] at he
    have hq1 : q.1 = n := by simpa using hcq
    refine .inl ⟨?_, ?_⟩
    · rw [← he]
      exact hq1
    · rw [← he]

theorem mem_cols_renameCol (df : DataFrame) (a b : String) (p : String × List Val)
    (h : p ∈ (renameCol df a b).cols) : ∃ q ∈ df.cols, q.2 = p.2 := by
  unfold renameCol at h
  rcases List.mem_map.mp h with ⟨q, hq, he⟩
  cases hcq : (q.1 == a)
  · rw [hcq, Bool.cond_false] at he
    exact ⟨q, hq, by rw [he]⟩
  · rw [hcq, Bool.cond_true] at he
    exact ⟨q, hq, by rw [← he]⟩

theorem getColAux_mem (cols : List (String × List Val)) (n : String)
    (h : (cols.map Prod.fst).contains n = true) : (n, getColAux cols n) ∈ cols := by
  induction cols with
  | nil => exact Bool.noConfusion h
  | cons q rest ih =>
    rcases q with ⟨k, u⟩
    cases hq : (k == n)
    · have h2 : (rest.map Prod.fst).contains n = true := by
        rw [List.map_cons, List.contains_cons] at h
        cases hnq : (n == k)
        · rw [hnq, Bool.false_or] at h
          exact h
        · have hnk : n = k := by simpa using hnq
          subst hnk
          exact absurd hq (by simp)
      have hg : getColAux ((k, u) :: rest) n = getColAux rest n := by
        simp [getColAux, hq]
      rw [hg]
      exact List.mem_cons_of_mem _ (ih h2)
    · have hk : k = n := by simpa using hq
      subst hk
      have hg : getColAux ((k, u) :: rest) k = u := by
        simp [getColAux]
      rw [hg]
      exact List.mem_cons_self _ _

theorem getCol_mem (df : DataFrame) (n : String) (h : hasCol df n = true) :
    (n, getCol df n) ∈ df.cols := getColAux_mem df.cols n h

theorem toDatetimeSel_some (r : DataFrame) (n : String) (w : List Val)
    (h : toDatetimeSel r n = some w) : toDatetimeCol (getCol r n) = some w := by
  unfold toDatetimeSel at h
  cases hc : (countCol r n == 1) <;> rw [hc] at h
  · rw [Bool.cond_false] at h
    exact Option.noConfusion h
  · rw [Bool.cond_true] at h
    exact h

theorem colProv_parse (df : DataFrame) (w u : List Val) (hw : colProv df w)
    (h : toDatetimeCol w = some u) : colProv df u := by
  rcases hw with ⟨v, rfl⟩ | ⟨n, hn⟩ | ⟨n, u0, hn, hu0⟩
  · cases hv : toDatetimeVal v with
    | some w2 =>
      rw [toDatetimeCol_replicate_some df.nrows v w2 hv] at h
      exact .inl ⟨w2, (Option.some.inj h).symm⟩
    | none =>
      cases hk : df.nrows with
      | zero =>
        rw [hk] at h
        refine .inl ⟨Val.na, ?_⟩
        rw [hk]
        exact (Option.some.inj h).symm
      | succ k =>
        exfalso
        rw [hk, List.replicate_succ] at h
        unfold toDatetimeCol at h
        rw [hv] at h
        cases hrest : toDatetimeCol (List.replicate k v) <;> rw [hrest] at h <;>
          exact Option.noConfusion h
  · exact .inr (.inr ⟨n, w, hn, h⟩)
  · rw [toDatetimeCol_idem hu0] at h
    exact .inr (.inr ⟨n, u0, hn, by rw [hu0, Option.some.inj h]⟩)

theorem provAll_setColScalar (df r : DataFrame) (n : String) (v : Val)
    (hp : provAll df r) : provAll df (setColScalar r n v) := by
  refine ⟨by rw [nrows_setColScalar]; exact hp.1, ?_⟩
  intro p hmem
  rcases mem_cols_setColScalar r n v p hmem with h | h
  · exact .inl ⟨v, by rw [h.2, hp.1]⟩
  · exact hp.2 p h

theorem provAll_setColValues (df r : DataFrame) (n : String) (w : List Val)
    (hp : provAll df r) (hw : colProv df w) : provAll df (setColValues r n w) := by
  refine ⟨by rw [nrows_setColValues]; exact hp.1, ?_⟩
  intro p hmem
  rcases mem_cols_setColValues r n w p hmem with h | h
  · rw [h.2]
    exact hw
  · exact hp.2 p h

theorem provAll_renameCol (df r : DataFrame) (a b : String) (hp : provAll df r) :
    provAll df (renameCol r a b) := by
  refine ⟨by rw [nrows_renameCol]; exact hp.1, ?_⟩
  intro p hmem
  rcases mem_cols_renameCol r a b p hmem with ⟨q, hq, he⟩
  rw [← he]
  exact hp.2 q hq

theorem provAll_selectCols (df r : DataFrame) (sel : List String) (hp : provAll df r) :
    provAll df (selectCols r sel) := by
  refine ⟨by rw [nrows_selectCols]; exact hp.1, ?_⟩
  intro p hmem
  exact hp.2 p ((mem_cols_selectCols r sel p).mp hmem).2

theorem provAll_getCol (df r : DataFrame) (n : String) (hp : provAll df r)
    (h : hasCol r n = true) : colProv df (getCol r n) :=
  hp.2 (n, getCol r n) (getCol_mem r n h)

theorem provAll_textStep (df df0 r : DataFrame) (tcol : Option String)
    (hp : provAll df r) : provAll df (standardize_textStep df0 r tcol) := by
  unfold standardize_textStep
  cases h1 : (truthyArg tcol && hasCol df0 (tcol.getD ""))
  · rw [Bool.cond_false]
    cases h2 : (!hasCol r "text")
    · rw [Bool.cond_false]
      exact hp
    · rw [Bool.cond_true]
      exact provAll_setColScalar df r "text" (Val.str "") hp
  · rw [Bool.cond_true]
    exact provAll_renameCol df r _ "text" hp

theorem provAll_dateStep (df df0 r r4 : DataFrame) (dcol : Option String) (now : Nat)
    (hp : provAll df r) (h : standardize_dateStep df0 r dcol now = .ok r4) :
    provAll df r4 := by
  unfold standardize_dateStep at h
  cases h1 : (truthyArg dcol && hasCol df0 (dcol.getD "")) <;> rw [h1] at h
  · rw [Bool.cond_false] at h
    cases h2 : (!hasCol r "date") <;> rw [h2] at h
    · rw [Bool.cond_false] at h
      rw [← Except.ok.inj h]
      exact hp
    · rw [Bool.cond_true] at h
      rw [← Except.ok.inj h]
      exact provAll_setColScalar df r "date" (Val.dt now) hp
  · rw [Bool.cond_true] at h
    have h' : (bif !hasCol (renameCol r (dcol.getD "") "date") "date" then
        (.error "KeyError" : Except String DataFrame)
      else bif !isDatetimeSel (renameCol r (dcol.getD "") "date") "date" then
        match toDatetimeSel (renameCol r (dcol.getD "") "date") "date" with
        | some parsed =>
          .ok (setColValues (renameCol r (dcol.getD "") "date") "date" parsed)
        | none => .ok (renameCol r (dcol.getD "") "date")
      else .ok (renameCol r (dcol.getD "") "date")) = .ok r4 := h
    have hpr3 : provAll df (renameCol r (dcol.getD "") "date") :=
      provAll_renameCol df r _ "date" hp
    cases h2 : (!hasCol (renameCol r (dcol.getD "") "date") "date") <;> rw [h2] at h'
    · rw [Bool.cond_false] at h'
      have hh : hasCol (renameCol r (dcol.getD "") "date") "date" = true := by
        cases hc : hasCol (renameCol r (dcol.getD "") "date") "date"
        · rw [hc] at h2
          exact absurd h2 (by decide)
        · rfl
      cases h3 : (!isDatetimeSel (renameCol r (dcol.getD "") "date") "date") <;>
        rw [h3] at h'
      · rw [Bool.cond_false] at h'
        rw [← Except.ok.inj h']
        exact hpr3
      · rw [Bool.cond_true] at h'
        cases h4 : toDatetimeSel (renameCol r (dcol.getD "") "date") "date" <;>
          rw [h4] at h'
        · rw [← Except.ok.inj h']
          exact hpr3
        · rw [← Except.ok.inj h']
          refine provAll_setColValues df _ "date" _ hpr3 ?_
          exact colProv_parse df _ _ (provAll_getCol df _ "date" hpr3 hh)
            (toDatetimeSel_some _ "date" _ h4)
    · rw [Bool.cond_true] at h'
      exact Except.noConfusion h'

theorem provAll_finalDate (df r : DataFrame) (now : Nat) (hp : provAll df r) :
    provAll df (standardize_finalDate r now) := by
  unfold standardize_finalDate
  cases h1 : hasCol r "date"
  · rw [Bool.cond_false]
    exact hp
  · rw [Bool.cond_true]
    cases h2 : toDatetimeSel r "date" with
    | none => exact provAll_setColScalar df r "date" (Val.dt now) hp
    | some parsed =>
      show provAll df (setColValues r "date" parsed)
      refine provAll_setColValues df r "date" parsed hp ?_
      exact colProv_parse df _ _ (provAll_getCol df r "date" hp h1)
        (toDatetimeSel_some r "date" parsed h2)

theorem provAll_project (df r T : DataFrame) (hp : provAll df r)
    (h : standardize_project r = .ok T) : provAll df T := by
  rcases project_inv r T h with ⟨_, _, _, hT⟩
  rw [hT]
  exact provAll_selectCols df r _ hp

/-- C8: every standardize call on a non-empty table that returns a
table preserves the row count, and every output column is a constant
column, an input column unchanged, or the elementwise datetime parse
of an input column — so row `i` of the output is derived from row `i`
of the input, no row dropped, added or reordered.  The claim's
implicit raise-freeness is refuted by the counterexample (clashing
text/date resolution raises `KeyError`). -/
theorem c8_theorem (df : DataFrame) (s : String) (tc dc : Option String) (now : Nat)
    (T : DataFrame) (hne : dfEmpty df = false)
    (h : standardize_dataframe df s tc dc now = .ok T) :
    T.nrows = df.nrows ∧ ∀ p ∈ T.cols, colProv df p.2 := by
  rw [std_unfold df s tc dc now hne] at h
  have hp0 : provAll df df := ⟨rfl, fun p hp => .inr (.inl ⟨p.1, hp⟩)⟩
  have hp2 : provAll df (standardize_textStep df (setColScalar df "source" (Val.str s))
      (resolveTextColumn df tc)) :=
    provAll_textStep df df _ _ (provAll_setColScalar df df "source" (Val.str s) hp0)
  cases hds : standardize_dateStep df (standardize_textStep df
      (setColScalar df "source" (Val.str s)) (resolveTextColumn df tc))
      (resolveDateColumn df dc) now <;> rw [hds] at h
  case error e => exact Except.noConfusion h
  case ok r4 =>
    have h4 : standardize_project (standardize_finalDate r4 now) = .ok T := h
    have hp4 : provAll df r4 := provAll_dateStep df df _ r4 _ now hp2 hds
    exact provAll_project df _ T (provAll_finalDate df r4 now hp4) h4

theorem c8_witness :
    (⟨2, [("text", [Val.str "a", Val.str "b"]), ("date", [Val.dt 1, Val.dt 2]),
      ("source", [Val.str "M", Val.str "M"])]⟩ : DataFrame).nrows =
      (⟨2, [("text", [Val.str "a", Val.str "b"]),
        ("date", [Val.dt 1, Val.dt 2])]⟩ : DataFrame).nrows ∧
    ∀ p ∈ (⟨2, [("text", [Val.str "a", Val.str "b"]), ("date", [Val.dt 1, Val.dt 2]),
        ("source", [Val.str "M", Val.str "M"])]⟩ : DataFrame).cols,
      colProv ⟨2, [("text", [Val.str "a", Val.str "b"]),
        ("date", [Val.dt 1, Val.dt 2])]⟩ p.2 :=
  c8_theorem ⟨2, [("text", [Val.str "a", Val.str "b"]), ("date", [Val.dt 1, Val.dt 2])]⟩
    "M" none none 4
    ⟨2, [("text", [Val.str "a", Val.str "b"]), ("date", [Val.dt 1, Val.dt 2]),
      ("source", [Val.str "M", Val.str "M"])]⟩
    (by decide) (by decide)

/-! ### The `source` column is always the broadcast literal (claim C4) -/

theorem srcConst_setColScalar (r : DataFrame) (n : String) (v : Val) (k : Nat)
    (sv : String) (hn : n ≠ "source")
    (hi : ∀ p ∈ r.cols, p.1 = "source" → p.2 = List.replicate k (Val.str sv)) :
    ∀ p ∈ (setColScalar r n v).cols, p.1 = "source" →
      p.2 = List.replicate k (Val.str sv) := by
  intro p hp hps
  rcases mem_cols_setColScalar r n v p hp with h | h
  · exact absurd (h.1.symm.trans hps) hn
  · exact hi p h hps

theorem srcConst_setColValues (r : DataFrame) (n : String) (w : List Val) (k : Nat)
    (sv : String) (hn : n ≠ "source")
    (hi : ∀ p ∈ r.cols, p.1 = "source" → p.2 = List.replicate k (Val.str sv)) :
    ∀ p ∈ (setColValues r n w).cols, p.1 = "source" →
      p.2 = List.replicate k (Val.str sv) := by
  intro p hp hps
  rcases mem_cols_setColValues r n w p hp with h | h
  · exact absurd (h.1.symm.trans hps) hn
  · exact hi p h hps

theorem srcConst_renameCol (r : DataFrame) (a b : String) (k : Nat) (sv : String)
    (hb : b ≠ "source")
    (hi : ∀ p ∈ r.cols, p.1 = "source" → p.2 = List.replicate k (Val.str sv)) :
    ∀ p ∈ (renameCol r a b).cols, p.1 = "source" →
      p.2 = List.replicate k (Val.str sv) := by
  intro p hp hps
  unfold renameCol at hp
  rcases List.mem_map.mp hp with ⟨q, hq, he⟩
  cases hcq : (q.1 == a)
  · rw [hcq, Bool.cond_false] at he
    exact hi p (he ▸ hq) hps
  · rw [hcq, Bool.cond_true] at he
    exfalso
    rw [← he] at hps
    exact hb hps

theorem srcConst_selectCols (r : DataFrame) (sel : List String) (k : Nat) (sv : String)
    (hi : ∀ p ∈ r.cols, p.1 = "source" → p.2 = List.replicate k (Val.str sv)) :
    ∀ p ∈ (selectCols r sel).cols, p.1 = "source" →
      p.2 = List.replicate k (Val.str sv) := by
  intro p hp hps
  exact hi p ((mem_cols_selectCols r sel p).mp hp).2 hps

theorem srcConst_base (df : DataFrame) (sv : String) :
    ∀ p ∈ (setColScalar df "source" (Val.str sv)).cols, p.1 = "source" →
      p.2 = List.replicate df.nrows (Val.str sv) := by
  intro p hp hps
  unfold setColScalar at hp
  cases hc : hasCol df "source" <;> rw [hc] at hp
  · rw [Bool.cond_false] at hp
    rcases List.mem_append.mp hp with h | h
    · exfalso
      have hh : hasCol df "source" = true := by
        rw [hasCol_iff]
        exact List.mem_map.mpr ⟨p, h, hps⟩
      rw [hc] at hh
      cases hh
    · rw [List.mem_singleton] at h
      subst h
      rfl
  · rw [Bool.cond_true] at hp
    rcases List.mem_map.mp hp with ⟨q, hq, he⟩
    cases hcq : (q.1 == "source")
    · rw [hcq, Bool.cond_false] at he
      exfalso
      rw [← he] at hps
      exact absurd hps (beq_eq_false_iff_ne.mp hcq)
    · rw [hcq, Bool.cond_true] at he
      rw [← he]

theorem srcConst_textStep (df0 r : DataFrame) (tcol : Option String) (k : Nat)
    (sv : String)
    (hi : ∀ p ∈ r.cols, p.1 = "source" → p.2 = List.replicate k (Val.str sv)) :
    ∀ p ∈ (standardize_textStep df0 r tcol).cols, p.1 = "source" →
      p.2 = List.replicate k (Val.str sv) := by
  unfold standardize_textStep
  cases h1 : (truthyArg tcol && hasCol df0 (tcol.getD ""))
  · rw [Bool.cond_false]
    cases h2 : (!hasCol r "text")
    · rw [Bool.cond_false]
      exact hi
    · rw [Bool.cond_true]
      exact srcConst_setColScalar r "text" (Val.str "") k sv (by decide) hi
  · rw [Bool.cond_true]
    exact srcConst_renameCol r _ "text" k sv (by decide) hi

theorem srcConst_dateStep (df0 r r4 : DataFrame) (dcol : Option String) (now : Nat)
    (k : Nat) (sv : String)
    (hi : ∀ p ∈ r.cols, p.1 = "source" → p.2 = List.replicate k (Val.str sv))
    (h : standardize_dateStep df0 r dcol now = .ok r4) :
    ∀ p ∈ r4.cols, p.1 = "source" → p.2 = List.replicate k (Val.str sv) := by
  unfold standardize_dateStep at h
  cases h1 : (truthyArg dcol && hasCol df0 (dcol.getD "")) <;> rw [h1] at h
  · rw [Bool.cond_false] at h
    cases h2 : (!hasCol r "date") <;> rw [h2] at h
    · rw [Bool.cond_false] at h
      rw [← Except.ok.inj h]
      exact hi
    · rw [Bool.cond_true] at h
      rw [← Except.ok.inj h]
      exact srcConst_setColScalar r "date" (Val.dt now) k sv (by decide) hi
  · rw [Bool.cond_true] at h
    have h' : (bif !hasCol (renameCol r (dcol.getD "") "date") "date" then
        (.error "KeyError" : Except String DataFrame)
      else bif !isDatetimeSel (renameCol r (dcol.getD "") "date") "date" then
        match toDatetimeSel (renameCol r (dcol.getD "") "date") "date" with
        | some parsed =>
          .ok (setColValues (renameCol r (dcol.getD "") "date") "date" parsed)
        | none => .ok (renameCol r (dcol.getD "") "date")
      else .ok (renameCol r (dcol.getD "") "date")) = .ok r4 := h
    have hir3 : ∀ p ∈ (renameCol r (dcol.getD "") "date").cols, p.1 = "source" →
        p.2 = List.replicate k (Val.str sv) :=
      srcConst_renameCol r _ "date" k sv (by decide) hi
    cases h2 : (!hasCol (renameCol r (dcol.getD "") "date") "date") <;> rw [h2] at h'
    · rw [Bool.cond_false] at h'
      cases h3 : (!isDatetimeSel (renameCol r (dcol.getD "") "date") "date") <;>
        rw [h3] at h'
      · rw [Bool.cond_false] at h'
        rw [← Except.ok.inj h']
        exact hir3
      · rw [Bool.cond_true] at h'
        cases h4 : toDatetimeSel (renameCol r (dcol.getD "") "date") "date" <;>
          rw [h4] at h'
        · rw [← Except.ok.inj h']
          exact hir3
        · rw [← Except.ok.inj h']
          exact srcConst_setColValues _ "date" _ k sv (by decide) hir3
    · rw [Bool.cond_true] at h'
      exact Except.noConfusion h'

theorem srcConst_finalDate (r : DataFrame) (now : Nat) (k : Nat) (sv : String)
    (hi : ∀ p ∈ r.cols, p.1 = "source" → p.2 = List.replicate k (Val.str sv)) :
    ∀ p ∈ (standardize_finalDate r now).cols, p.1 = "source" →
      p.2 = List.replicate k (Val.str sv) := by
  unfold standardize_finalDate
  cases h1 : hasCol r "date"
  · rw [Bool.cond_false]
    exact hi
  · rw [Bool.cond_true]
    cases h2 : toDatetimeSel r "date" with
    | none => exact srcConst_setColScalar r "date" (Val.dt now) k sv (by decide) hi
    | some parsed =>
      show ∀ p ∈ (setColValues r "date" parsed).cols, p.1 = "source" →
        p.2 = List.replicate k (Val.str sv)
      exact srcConst_setColValues r "date" parsed k sv (by decide) hi

/-- C4: every standardize call that returns a table yields the three
canonical columns `text`, `date` and `source`, and every row of the
`source` column holds the caller-supplied literal — for all argument
combinations, with no proviso.  The claim's never-null part is refuted
by the counterexample: input nulls pass through into `text`. -/
theorem c4_theorem (df : DataFrame) (s : String) (tc dc : Option String) (now : Nat)
    (T : DataFrame) (h : standardize_dataframe df s tc dc now = .ok T) :
    hasCol T "text" = true ∧ hasCol T "date" = true ∧ hasCol T "source" = true ∧
    getCol T "source" = List.replicate T.nrows (Val.str s) := by
  cases hemp : dfEmpty df
  case false =>
    rw [std_unfold df s tc dc now hemp] at h
    have hp0 : provAll df df := ⟨rfl, fun p hp => .inr (.inl ⟨p.1, hp⟩)⟩
    have hp2 : provAll df (standardize_textStep df (setColScalar df "source" (Val.str s))
        (resolveTextColumn df tc)) :=
      provAll_textStep df df _ _ (provAll_setColScalar df df "source" (Val.str s) hp0)
    have hs2 : ∀ p ∈ (standardize_textStep df (setColScalar df "source" (Val.str s))
        (resolveTextColumn df tc)).cols, p.1 = "source" →
        p.2 = List.replicate df.nrows (Val.str s) :=
      srcConst_textStep df _ _ df.nrows s (srcConst_base df s)
    cases hds : standardize_dateStep df (standardize_textStep df
        (setColScalar df "source" (Val.str s)) (resolveTextColumn df tc))
        (resolveDateColumn df dc) now <;> rw [hds] at h
    case error e => exact Except.noConfusion h
    case ok r4 =>
      have h4 : standardize_project (standardize_finalDate r4 now) = .ok T := h
      have hp5 : provAll df (standardize_finalDate r4 now) :=
        provAll_finalDate df r4 now (provAll_dateStep df df _ r4 _ now hp2 hds)
      have hs5 : ∀ p ∈ (standardize_finalDate r4 now).cols, p.1 = "source" →
          p.2 = List.replicate df.nrows (Val.str s) :=
        srcConst_finalDate r4 now df.nrows s
          (srcConst_dateStep df _ r4 _ now df.nrows s hs2 hds)
      rcases project_inv _ T h4 with ⟨p1, p2, p3, hT⟩
      have hT1 : hasCol T "text" = true := by
        rw [hT, hasCol_selectCols, p1, Bool.and_true]
        exact List.elem_iff.mpr (List.mem_append_left _ (by decide))
      have hT2 : hasCol T "date" = true := by
        rw [hT, hasCol_selectCols, p2, Bool.and_true]
        exact List.elem_iff.mpr (List.mem_append_left _ (by decide))
      have hT3 : hasCol T "source" = true := by
        rw [hT, hasCol_selectCols, p3, Bool.and_true]
        exact List.elem_iff.mpr (List.mem_append_left _ (by decide))
      have hTn : T.nrows = df.nrows := by
        rw [hT, nrows_selectCols]
        exact hp5.1
      have hsT : ∀ p ∈ T.cols, p.1 = "source" →
          p.2 = List.replicate df.nrows (Val.str s) := by
        rw [hT]
        exact srcConst_selectCols _ _ df.nrows s hs5
      refine ⟨hT1, hT2, hT3, ?_⟩
      have hget : getCol T "source" = List.replicate df.nrows (Val.str s) :=
        hsT ("source", getCol T "source") (getCol_mem T "source" hT3) rfl
      rw [hget, hTn]
  case true =>
    rw [std_empty df s tc dc now hemp] at h
    injection h with hT
    subst hT
    exact ⟨by decide, by decide, by decide, rfl⟩

theorem c4_witness :
    hasCol ⟨1, [("text", [Val.str "b"]), ("date", [Val.dt 11]),
      ("source", [Val.str "Q"])]⟩ "text" = true ∧
    hasCol ⟨1, [("text", [Val.str "b"]), ("date", [Val.dt 11]),
      ("source", [Val.str "Q"])]⟩ "date" = true ∧
    hasCol ⟨1, [("text", [Val.str "b"]), ("date", [Val.dt 11]),
      ("source", [Val.str "Q"])]⟩ "source" = true ∧
    getCol ⟨1, [("text", [Val.str "b"]), ("date", [Val.dt 11]),
        ("source", [Val.str "Q"])]⟩ "source" =
      List.replicate (⟨1, [("text", [Val.str "b"]), ("date", [Val.dt 11]),
        ("source", [Val.str "Q"])]⟩ : DataFrame).nrows (Val.str "Q") :=
  c4_theorem ⟨1, [("text", [Val.str "b"]), ("date", [Val.dt 11])]⟩ "Q" none none 3
    ⟨1, [("text", [Val.str "b"]), ("date", [Val.dt 11]), ("source", [Val.str "Q"])]⟩
    (by decide)
